import Mathlib

/-!
# MTCParser: a MIDI Time Code decoder

A shallow embedding of `src/MTCParser.h`.

* `uint8_t` values are natural numbers.  Every value the decoder writes into a
  field is below 256 whenever the fed byte and the previous field value are
  (`feed_buffer_byte`), so no write needs a reduction modulo 256.
* `RingQueue.h` is not among the sources.  The queue type `Q` and the two
  operations the decoder uses (`push`, `front`) are parameters of the embedding.
* `ofLogError` only writes to a log and is not modelled.
* `float` and `double` values are rational numbers.  `asSeconds`, `asMillis`
  and `asMicros` are given with exact arithmetic; `float_asSeconds` and
  `asFrameCount` round every operation to its machine type (`roundFloat`,
  `roundDouble`).
-/

namespace MTCParser

/-! ## Data model -/

/-- The struct `MTCPacket`. -/
structure MTCPacket where
  type : Nat
  hour : Nat
  minute : Nat
  second : Nat
  frame : Nat
  deriving DecidableEq, Repr

/-- The enum class `State`. -/
inductive State where
  | Header
  | FFM_Header_2
  | FFM_Channel
  | FFM_ID_1
  | FFM_ID_2
  | FFM_Hour
  | FFM_Minute
  | FFM_Second
  | FFM_Frame
  | FFM_EOX
  | QFM_Value
  deriving DecidableEq, Repr

/-! The enum `StateValues`. -/

def FFM_Header_1 : Nat := 0xF0
def FFM_Header_2 : Nat := 0x7F
def FFM_Channel : Nat := 0x7F
def FFM_ID_1 : Nat := 0x01
def FFM_ID_2 : Nat := 0x01
def FFM_EOX : Nat := 0xF7
def QFM_Header : Nat := 0xF1
def QFM_Index_Frame_LSB : Nat := 0x00
def QFM_Index_Frame_MSB : Nat := 0x01
def QFM_Index_Second_LSB : Nat := 0x02
def QFM_Index_Second_MSB : Nat := 0x03
def QFM_Index_Minute_LSB : Nat := 0x04
def QFM_Index_Minute_MSB : Nat := 0x05
def QFM_Index_Hour_LSB : Nat := 0x06
def QFM_Index_Hour_MSB : Nat := 0x07

/-! The enum `MTCType`. -/

def FPS_24 : Nat := 0
def FPS_25 : Nat := 1
def FPS_29_97 : Nat := 2
def FPS_30 : Nat := 3

/-- The data members of the class `MTCParser`: the packet queue `mtc_packet_`
(of the queue type `Q`), the assembly buffer `mtc_buffer_` and `state`. -/
structure Parser (Q : Type) where
  mtc_packet_ : Q
  mtc_buffer_ : MTCPacket
  state : State
  deriving DecidableEq, Repr

/-! ## Operations -/

/-- The value of `mtc_buffer_` after `clearBuffer()`. -/
def clearedBuffer : MTCPacket :=
  { type := 0xFF, hour := 0xFF, minute := 0xFF, second := 0xFF, frame := 0xFF }

/-- The method `clearBuffer()`. -/
def clearBuffer {Q : Type} (self : Parser Q) : Parser Q :=
  { self with mtc_buffer_ := clearedBuffer }

/-- The inner `switch (index)` of the `State::QFM_Value` case of `feed`: the
effect of one fragment on the assembly buffer and on the queue. -/
def feedQFM {Q : Type} (push : Q → MTCPacket → Q) (self : Parser Q) (index value : Nat) :
    Parser Q :=
  let b := self.mtc_buffer_
  if index = QFM_Index_Frame_LSB then
    { self with mtc_buffer_ := { b with frame := value &&& 0x0F } }
  else if index = QFM_Index_Frame_MSB then
    { self with mtc_buffer_ := { b with frame := b.frame ||| ((value &&& 0x01) <<< 4) } }
  else if index = QFM_Index_Second_LSB then
    { self with mtc_buffer_ := { b with second := value &&& 0x0F } }
  else if index = QFM_Index_Second_MSB then
    { self with mtc_buffer_ := { b with second := b.second ||| ((value &&& 0x03) <<< 4) } }
  else if index = QFM_Index_Minute_LSB then
    { self with mtc_buffer_ := { b with minute := value &&& 0x0F } }
  else if index = QFM_Index_Minute_MSB then
    { self with mtc_buffer_ := { b with minute := b.minute ||| ((value &&& 0x03) <<< 4) } }
  else if index = QFM_Index_Hour_LSB then
    { self with mtc_buffer_ := { b with hour := value &&& 0x0F } }
  else if index = QFM_Index_Hour_MSB then
    let b1 : MTCPacket :=
      { b with hour := b.hour ||| ((value &&& 0x01) <<< 4), type := (value >>> 1) &&& 0x03 }
    clearBuffer { self with mtc_packet_ := push self.mtc_packet_ b1, mtc_buffer_ := b1 }
  else
    self

/-- The method `feed(const uint8_t data)`. -/
def feed {Q : Type} (push : Q → MTCPacket → Q) (self : Parser Q) (data : Nat) : Parser Q :=
  match self.state with
  | State.Header =>
    if data = FFM_Header_1 then
      clearBuffer { self with state := State.FFM_Header_2 }
    else if data = QFM_Header then
      { self with state := State.QFM_Value }
    else
      clearBuffer { self with state := State.Header }
  | State.FFM_Header_2 =>
    if data = FFM_Header_2 then { self with state := State.FFM_Channel }
    else { self with state := State.Header }
  | State.FFM_Channel =>
    if data = FFM_Channel then { self with state := State.FFM_ID_1 }
    else { self with state := State.Header }
  | State.FFM_ID_1 =>
    if data = FFM_ID_1 then { self with state := State.FFM_ID_2 }
    else { self with state := State.Header }
  | State.FFM_ID_2 =>
    if data = FFM_ID_2 then { self with state := State.FFM_Hour }
    else { self with state := State.Header }
  | State.FFM_Hour =>
    { self with
      mtc_buffer_ :=
        { self.mtc_buffer_ with type := (data >>> 5) &&& 0x03, hour := (data >>> 0) &&& 0x1F }
      state := State.FFM_Minute }
  | State.FFM_Minute =>
    { self with
      mtc_buffer_ := { self.mtc_buffer_ with minute := data }
      state := State.FFM_Second }
  | State.FFM_Second =>
    { self with
      mtc_buffer_ := { self.mtc_buffer_ with second := data }
      state := State.FFM_Frame }
  | State.FFM_Frame =>
    { self with
      mtc_buffer_ := { self.mtc_buffer_ with frame := data }
      state := State.FFM_EOX }
  | State.FFM_EOX =>
    if data = FFM_EOX then
      { self with mtc_packet_ := push self.mtc_packet_ self.mtc_buffer_, state := State.Header }
    else
      { self with state := State.Header }
  | State.QFM_Value =>
    let index := (data >>> 4) &&& 0x07
    let value := (data >>> 0) &&& 0x0F
    { feedQFM push self index value with state := State.Header }

/-- The loop of `feed(const uint8_t* const data, const size_t size)`, from index
`i` on: `for (; i < size; ++i) feed(data[i])`.  The array is a list; a read
past its end (undefined in the source) yields 0. -/
def feedLoop {Q : Type} (push : Q → MTCPacket → Q) (data : List Nat) (size : Nat)
    (i : Nat) (self : Parser Q) : Parser Q :=
  if i < size then feedLoop push data size (i + 1) (feed push self (data.getD i 0))
  else self
termination_by size - i

/-- The method `feed(const uint8_t* const data, const size_t size)`. -/
def feedBlock {Q : Type} (push : Q → MTCPacket → Q) (self : Parser Q) (data : List Nat)
    (size : Nat) : Parser Q :=
  feedLoop push data size 0 self

/-- Successive calls `feed(b₀)`, `feed(b₁)`, … for the bytes of a list, in order. -/
def feedSeq {Q : Type} (push : Q → MTCPacket → Q) (self : Parser Q) (bytes : List Nat) :
    Parser Q :=
  bytes.foldl (feed push) self

/-! The accessors of the front packet.  `front` is the queue operation
`mtc_packet_.front()`. -/

/-- The method `type()`. -/
def type {Q : Type} (front : Q → MTCPacket) (self : Parser Q) : Nat :=
  (front self.mtc_packet_).type

/-- The method `hour()`. -/
def hour {Q : Type} (front : Q → MTCPacket) (self : Parser Q) : Nat :=
  (front self.mtc_packet_).hour

/-- The method `minute()`. -/
def minute {Q : Type} (front : Q → MTCPacket) (self : Parser Q) : Nat :=
  (front self.mtc_packet_).minute

/-- The method `second()`. -/
def second {Q : Type} (front : Q → MTCPacket) (self : Parser Q) : Nat :=
  (front self.mtc_packet_).second

/-- The method `frame()`. -/
def frame {Q : Type} (front : Q → MTCPacket) (self : Parser Q) : Nat :=
  (front self.mtc_packet_).frame

/-- The library function `to_string` at a `uint8_t` argument (promoted to `int`):
the decimal digits of the value, most significant first. -/
def to_string (n : Nat) : String := Nat.repr n

/-- The method `asString()`. -/
def asString {Q : Type} (front : Q → MTCPacket) (self : Parser Q) : String :=
  if type front self = FPS_29_97 then
    to_string (hour front self) ++ ":" ++ to_string (minute front self) ++ ":" ++
      to_string (second front self) ++ ";" ++ to_string (frame front self)
  else
    to_string (hour front self) ++ ":" ++ to_string (minute front self) ++ ":" ++
      to_string (second front self) ++ ":" ++ to_string (frame front self)

/-! The rate tables and the time conversions with exact arithmetic: `float` and
`double` values are rational numbers and no operation rounds. -/

/-- The table `MTCFrameRate`. -/
def MTCFrameRate : List ℚ := [24, 25, 29.97, 30]

/-- The table `MTCFrameSecond`. -/
def MTCFrameSecond : List ℚ :=
  [1 / MTCFrameRate.getD 0 0, 1 / MTCFrameRate.getD 1 0, 1 / MTCFrameRate.getD 2 0,
    1 / MTCFrameRate.getD 3 0]

/-- The method `asSeconds()`.  A table read past index 3 (undefined in the
source) yields 0. -/
def asSeconds {Q : Type} (front : Q → MTCPacket) (self : Parser Q) : ℚ :=
  let t := front self.mtc_packet_
  t.hour * 60 * 60 + t.minute * 60 + t.second + t.frame * MTCFrameSecond.getD t.type 0

/-- The method `asMillis()`. -/
def asMillis {Q : Type} (front : Q → MTCPacket) (self : Parser Q) : ℚ :=
  asSeconds front self * 0.001

/-- The method `asMicros()`. -/
def asMicros {Q : Type} (front : Q → MTCPacket) (self : Parser Q) : ℚ :=
  asMillis front self * 0.001

/-! The rate tables and `asSeconds()` with the rounding of the machine types, and
`asFrameCount()` on top of them.  A `float` is a binary32 and a `double` a
binary64 value; every operation yields the value of its result type nearest to
the exact result, a tie going to the even significand.  The values of these
methods lie far inside the exponent range, which is not modelled. -/

/-- The integer nearest to a rational, a tie going to the even one. -/
def roundHalfEven (n : ℚ) : Int :=
  if n - ⌊n⌋ < 1 / 2 then ⌊n⌋
  else if 1 / 2 < n - ⌊n⌋ then ⌊n⌋ + 1
  else if ⌊n⌋ % 2 = 0 then ⌊n⌋ else ⌊n⌋ + 1

/-- The binary floating-point value with `prec` significant bits nearest to `x`,
a tie going to the even significand. -/
def roundToBinary (prec : Nat) (x : ℚ) : ℚ :=
  if x = 0 then 0
  else
    let ulp : ℚ := 2 ^ (Int.log 2 |x| + 1 - prec)
    if 0 < x then roundHalfEven (x / ulp) * ulp else -(roundHalfEven (-x / ulp) * ulp)

/-- Rounding to `float`: 24 significant bits. -/
def roundFloat (x : ℚ) : ℚ := roundToBinary 24 x

/-- Rounding to `double`: 53 significant bits. -/
def roundDouble (x : ℚ) : ℚ := roundToBinary 53 x

/-- The table `MTCFrameRate` as `float` values: the literals `24.f`, `25.f`,
`29.97f`, `30.f`. -/
def float_MTCFrameRate : List ℚ :=
  [roundFloat 24, roundFloat 25, roundFloat 29.97, roundFloat 30]

/-- The table `MTCFrameSecond` as `float` values: the `float` quotients
`1.f / MTCFrameRate[i]`. -/
def float_MTCFrameSecond : List ℚ :=
  [roundFloat (roundFloat 1 / float_MTCFrameRate.getD 0 0),
    roundFloat (roundFloat 1 / float_MTCFrameRate.getD 1 0),
    roundFloat (roundFloat 1 / float_MTCFrameRate.getD 2 0),
    roundFloat (roundFloat 1 / float_MTCFrameRate.getD 3 0)]

/-- The method `asSeconds()` with the rounding of each operation.  In
`t.hour * 60. * 60. + t.minute * 60. + t.second + t.frame * MTCFrameSecond[t.type]`
the products with `60.` and the three sums are `double` operations, the last
product is a `float` product, and the result is converted to `float`.  A table
read past index 3 (undefined in the source) yields 0. -/
def float_asSeconds {Q : Type} (front : Q → MTCPacket) (self : Parser Q) : ℚ :=
  let t := front self.mtc_packet_
  roundFloat
    (roundDouble
      (roundDouble
          (roundDouble (roundDouble (roundDouble (t.hour * 60) * 60) + roundDouble (t.minute * 60))
            + t.second)
        + roundFloat (t.frame * float_MTCFrameSecond.getD t.type 0)))

/-- The conversion of a `float` to `int32_t`: the fractional part is discarded. -/
def truncate (x : ℚ) : Int := if 0 ≤ x then ⌊x⌋ else ⌈x⌉

/-- The method `asFrameCount()`: the `float` product of `asSeconds()` and
`MTCFrameRate[type]`, converted to `int32_t`. -/
def asFrameCount {Q : Type} (front : Q → MTCPacket) (self : Parser Q) : Int :=
  truncate
    (roundFloat
      (float_asSeconds front self * float_MTCFrameRate.getD (front self.mtc_packet_).type 0))

/-- The ten bytes of a Full Frame Message `F0 7F 7F 01 01 hr mn sc fr F7`. -/
def ffmBytes (hr mn sc fr : Nat) : List Nat :=
  [0xF0, 0x7F, 0x7F, 0x01, 0x01, hr, mn, sc, fr, 0xF7]

/-- The sixteen bytes of eight Quarter Frame units `F1 d0 F1 d1 ... F1 d7`. -/
def qfmBytes (d0 d1 d2 d3 d4 d5 d6 d7 : Nat) : List Nat :=
  [0xF1, d0, 0xF1, d1, 0xF1, d2, 0xF1, d3, 0xF1, d4, 0xF1, d5, 0xF1, d6, 0xF1, d7]

/-- The fragment index of a Quarter Frame data byte: `(data >> 4) & 0x07`. -/
def qfmIndex (data : Nat) : Nat := (data >>> 4) &&& 0x07

/-- A packet all of whose fields are values of `uint8_t`. -/
def isBytePacket (t : MTCPacket) : Prop :=
  t.type < 256 ∧ t.hour < 256 ∧ t.minute < 256 ∧ t.second < 256 ∧ t.frame < 256

/-- A packet none of whose fields is the value `0xFF` written by `clearBuffer()`. -/
def noSentinel (t : MTCPacket) : Prop :=
  t.type ≠ 0xFF ∧ t.hour ≠ 0xFF ∧ t.minute ≠ 0xFF ∧ t.second ≠ 0xFF ∧ t.frame ≠ 0xFF

instance : DecidablePred noSentinel := fun t => by
  unfold noSentinel; infer_instance

/-- A byte of a well-formed MIDI stream as far as this decoder is concerned: a
data byte (below `0x80`) or one of the status bytes `F0`, `F1`, `F7`. -/
def okByte (b : Nat) : Prop := b < 0x80 ∨ b = 0xF0 ∨ b = 0xF1 ∨ b = 0xF7

instance : DecidablePred okByte := fun b => by
  unfold okByte; infer_instance

/-- What is known of the assembly buffer in each state of a decoder that was
started in state `Header` and fed bytes satisfying `okByte`: the hour is unset
or below `0x20`, and inside a Full Frame Message the fields written so far are
set. -/
def assemblyInv (s : State) (t : MTCPacket) : Prop :=
  (t.hour < 0x20 ∨ t.hour = 0xFF) ∧
    match s with
    | State.FFM_Minute => t.type ≤ 3 ∧ t.hour < 0x20
    | State.FFM_Second => t.type ≤ 3 ∧ t.hour < 0x20 ∧ t.minute ≠ 0xFF
    | State.FFM_Frame => t.type ≤ 3 ∧ t.hour < 0x20 ∧ t.minute ≠ 0xFF ∧ t.second ≠ 0xFF
    | State.FFM_EOX =>
      t.type ≤ 3 ∧ t.hour < 0x20 ∧ t.minute ≠ 0xFF ∧ t.second ≠ 0xFF ∧ t.frame ≠ 0xFF
    | _ => True

/-- An upper bound on the number of bytes after which a decoder that is in the
given state is in state `Header` again. -/
def stepsToHeader : State → Nat
  | State.Header => 0
  | State.FFM_Header_2 => 9
  | State.FFM_Channel => 8
  | State.FFM_ID_1 => 7
  | State.FFM_ID_2 => 6
  | State.FFM_Hour => 5
  | State.FFM_Minute => 4
  | State.FFM_Second => 3
  | State.FFM_Frame => 2
  | State.FFM_EOX => 1
  | State.QFM_Value => 1

/-- The states in which the type of the assembly buffer has been written by
`FFM_Hour` and is waiting to be pushed by `FFM_EOX`: there it is at most 3. -/
def typeInv (s : State) (t : MTCPacket) : Prop :=
  match s with
  | State.FFM_Minute => t.type ≤ 3
  | State.FFM_Second => t.type ≤ 3
  | State.FFM_Frame => t.type ≤ 3
  | State.FFM_EOX => t.type ≤ 3
  | _ => True

/-- Modelled from the spec: `RingQueue.h` is not among the sources.  This queue
is a FIFO that keeps every pushed packet, oldest first; it serves as a concrete
queue on which the decoder can be run. -/
def listPush (q : List MTCPacket) (t : MTCPacket) : List MTCPacket := q ++ [t]

/-- Modelled from the spec: `RingQueue.h` is not among the sources.  The oldest
packet of the list queue; on an empty queue (where the source reads an element
that does not exist) the all-`0xFF` packet. -/
def listFront (q : List MTCPacket) : MTCPacket := q.headD clearedBuffer

/-- A decoder over the list queue: state `Header`, cleared assembly buffer, empty
queue. -/
def idleParser : Parser (List MTCPacket) :=
  { mtc_packet_ := [], mtc_buffer_ := clearedBuffer, state := State.Header }

end MTCParser

namespace MTCParser

/-! ## Single steps -/

theorem feedSeq_nil {Q : Type} (push : Q → MTCPacket → Q) (p : Parser Q) :
    feedSeq push p [] = p := rfl

theorem feedSeq_cons {Q : Type} (push : Q → MTCPacket → Q) (p : Parser Q) (b : Nat)
    (bs : List Nat) : feedSeq push p (b :: bs) = feedSeq push (feed push p b) bs := rfl

theorem feedSeq_append {Q : Type} (push : Q → MTCPacket → Q) (p : Parser Q)
    (as bs : List Nat) :
    feedSeq push p (as ++ bs) = feedSeq push (feedSeq push p as) bs := by
  simp [feedSeq, List.foldl_append]

/-- Feeding a whole Full Frame Message to a decoder in state `Header`. -/
theorem feedSeq_ffm {Q : Type} (push : Q → MTCPacket → Q) (p : Parser Q)
    (hp : p.state = State.Header) (hr mn sc fr : Nat) :
    feedSeq push p (ffmBytes hr mn sc fr) =
      { mtc_packet_ := push p.mtc_packet_
          { type := (hr >>> 5) &&& 3, hour := hr &&& 0x1F, minute := mn, second := sc,
            frame := fr }
        mtc_buffer_ :=
          { type := (hr >>> 5) &&& 3, hour := hr &&& 0x1F, minute := mn, second := sc,
            frame := fr }
        state := State.Header } := by
  obtain ⟨q, b, s⟩ := p
  subst hp
  simp [feedSeq, ffmBytes, feed, clearBuffer, clearedBuffer, FFM_Header_1, FFM_Header_2,
    FFM_Channel, FFM_ID_1, FFM_ID_2, FFM_EOX, QFM_Header]

/-! ## Bit-level facts about fragment values -/

theorem and1_eq_mod (d : Nat) : d &&& 1 = d % 2 := Nat.and_pow_two_sub_one_eq_mod d 1

theorem and3_eq_mod (d : Nat) : d &&& 3 = d % 4 := Nat.and_pow_two_sub_one_eq_mod d 2

theorem and7_eq_mod (d : Nat) : d &&& 7 = d % 8 := Nat.and_pow_two_sub_one_eq_mod d 3

theorem and15_eq_mod (d : Nat) : d &&& 15 = d % 16 := Nat.and_pow_two_sub_one_eq_mod d 4

theorem and31_eq_mod (d : Nat) : d &&& 31 = d % 32 := Nat.and_pow_two_sub_one_eq_mod d 5

theorem and15_and15 (d : Nat) : (d &&& 15) &&& 15 = d &&& 15 := by
  simp only [and15_eq_mod]; omega

theorem and15_and1 (d : Nat) : (d &&& 15) &&& 1 = d &&& 1 := by
  simp only [and15_eq_mod, and1_eq_mod]; omega

theorem and15_and3 (d : Nat) : (d &&& 15) &&& 3 = d &&& 3 := by
  simp only [and15_eq_mod, and3_eq_mod]; omega

theorem and15_mod2 (d : Nat) : (d &&& 15) % 2 = d % 2 := by
  rw [and15_eq_mod]; omega

theorem and15_shr1_and3 (d : Nat) : ((d &&& 15) >>> 1) &&& 3 = (d >>> 1) &&& 3 := by
  simp only [and15_eq_mod, and3_eq_mod]; omega

/-! ## Quarter Frame units -/

/-- The fragment switch neither reads nor writes `state`. -/
theorem feedQFM_state {Q : Type} (push : Q → MTCPacket → Q) (q : Q) (b : MTCPacket)
    (s : State) (index value : Nat) :
    feedQFM push ⟨q, b, s⟩ index value =
      { feedQFM push ⟨q, b, State.Header⟩ index value with state := s } := by
  unfold feedQFM clearBuffer
  split_ifs <;> rfl

/-- One Quarter Frame unit `F1 d` fed to a decoder in state `Header`. -/
theorem feedSeq_qfm_unit {Q : Type} (push : Q → MTCPacket → Q) (p : Parser Q)
    (hp : p.state = State.Header) (d : Nat) :
    feedSeq push p [0xF1, d] =
      { feedQFM push p ((d >>> 4) &&& 7) (d &&& 15) with state := State.Header } := by
  obtain ⟨q, b, s⟩ := p
  subst hp
  simp [feedSeq, feed, FFM_Header_1, QFM_Header, feedQFM_state push q b State.QFM_Value]

/-! ## Field values stay within `uint8_t` -/

theorem or_shift_lt_256 (x v m : Nat) (hx : x < 256) (hm : m ≤ 3) :
    x ||| ((v &&& m) <<< 4) < 256 := by
  have h1 : v &&& m ≤ m := Nat.and_le_right
  have h2 : (v &&& m) <<< 4 < 2 ^ 8 := by
    rw [Nat.shiftLeft_eq]
    have : (2 : Nat) ^ 4 = 16 := by norm_num
    omega
  exact Nat.or_lt_two_pow (by simpa using hx) h2

/-- Fed a `uint8_t`, a decoder whose assembly buffer holds `uint8_t` values
writes only `uint8_t` values: no assignment of `feed` truncates. -/
theorem feed_buffer_byte {Q : Type} (push : Q → MTCPacket → Q) (p : Parser Q) (b : Nat)
    (hb : b < 256) (h : isBytePacket p.mtc_buffer_) :
    isBytePacket (feed push p b).mtc_buffer_ := by
  obtain ⟨q, t, s⟩ := p
  obtain ⟨ty, hr, mn, sc, fr⟩ := t
  simp only [isBytePacket] at h
  obtain ⟨h1, h2, h3, h4, h5⟩ := h
  have e1 := or_shift_lt_256 fr (b &&& 15) 1 h5 (by decide)
  have e2 := or_shift_lt_256 sc (b &&& 15) 3 h4 (by decide)
  have e3 := or_shift_lt_256 mn (b &&& 15) 3 h3 (by decide)
  have e4 := or_shift_lt_256 hr (b &&& 15) 1 h2 (by decide)
  cases s
  case QFM_Value =>
    simp only [feed, feedQFM, clearBuffer, clearedBuffer, Nat.shiftRight_zero]
    split_ifs <;>
      simp only [isBytePacket, and15_eq_mod, and3_eq_mod] at * <;>
      omega
  all_goals
    simp only [feed, clearBuffer, clearedBuffer, Nat.shiftRight_zero]
    try split_ifs
    all_goals
      simp only [isBytePacket, and31_eq_mod, and3_eq_mod]
      omega

/-! ## Full Frame Messages -/

/-- No byte of a Full Frame Message before the terminator touches the queue. -/
theorem feedSeq_ffm_take {Q : Type} (push : Q → MTCPacket → Q) (p : Parser Q)
    (hp : p.state = State.Header) (hr mn sc fr x : Nat) (k : Nat) (hk : k < 10) :
    (feedSeq push p (List.take k [0xF0, 0x7F, 0x7F, 0x01, 0x01, hr, mn, sc, fr, x])).mtc_packet_
      = p.mtc_packet_ := by
  obtain ⟨q, b, s⟩ := p
  subst hp
  interval_cases k <;>
    simp [feedSeq, feed, clearBuffer, FFM_Header_1, FFM_Header_2, FFM_Channel, FFM_ID_1,
      FFM_ID_2, QFM_Header]

/-- C1. Feeding the ten bytes `F0 7F 7F 01 01 hr mn sc fr F7` to a decoder in
state `Header` (any assembly buffer, any queue) performs exactly one push, on
the last byte, of the packet with type `(hr>>5)&3`, hour `hr&0x1F`, minute `mn`,
second `sc`, frame `fr`, and ends in state `Header`. -/
theorem C1_full_frame_decoding {Q : Type} (push : Q → MTCPacket → Q) (p : Parser Q)
    (hp : p.state = State.Header) (hr mn sc fr : Nat) :
    (feedSeq push p (ffmBytes hr mn sc fr)).mtc_packet_ =
        push p.mtc_packet_
          { type := (hr >>> 5) &&& 3, hour := hr &&& 0x1F, minute := mn, second := sc,
            frame := fr } ∧
      (feedSeq push p (ffmBytes hr mn sc fr)).state = State.Header ∧
      ∀ k, k < 10 →
        (feedSeq push p (List.take k (ffmBytes hr mn sc fr))).mtc_packet_ = p.mtc_packet_ := by
  refine ⟨?_, ?_, ?_⟩
  · rw [feedSeq_ffm push p hp]
  · rw [feedSeq_ffm push p hp]
  · intro k hk
    exact feedSeq_ffm_take push p hp hr mn sc fr 0xF7 k hk

/-- C1, at the message `F0 7F 7F 01 01 21 05 0A 03 F7`: type 1, hour 1, minute 5,
second 10, frame 3. -/
theorem C1_full_frame_decoding_witness :
    idleParser.state = State.Header ∧
      (feedSeq listPush idleParser
          [0xF0, 0x7F, 0x7F, 0x01, 0x01, 0x21, 0x05, 0x0A, 0x03, 0xF7]).mtc_packet_ =
        [{ type := 1, hour := 1, minute := 5, second := 10, frame := 3 }] ∧
      (feedSeq listPush idleParser
          [0xF0, 0x7F, 0x7F, 0x01, 0x01, 0x21, 0x05, 0x0A, 0x03, 0xF7]).state = State.Header :=
  ⟨rfl, (C1_full_frame_decoding listPush idleParser rfl 0x21 0x05 0x0A 0x03).1,
    (C1_full_frame_decoding listPush idleParser rfl 0x21 0x05 0x0A 0x03).2.1⟩

/-- C3. A Full Frame Message whose terminator is replaced by a byte `x ≠ 0xF7`,
fed to a decoder in state `Header`, never touches the queue (after every one of
its bytes the queue is the initial one) and ends in state `Header`. -/
theorem C3_corrupted_terminator {Q : Type} (push : Q → MTCPacket → Q) (p : Parser Q)
    (hp : p.state = State.Header) (hr mn sc fr x : Nat) (hx : x ≠ 0xF7) :
    (∀ k, (feedSeq push p
        (List.take k [0xF0, 0x7F, 0x7F, 0x01, 0x01, hr, mn, sc, fr, x])).mtc_packet_
          = p.mtc_packet_) ∧
      (feedSeq push p [0xF0, 0x7F, 0x7F, 0x01, 0x01, hr, mn, sc, fr, x]).state
        = State.Header := by
  have hfull : feedSeq push p [0xF0, 0x7F, 0x7F, 0x01, 0x01, hr, mn, sc, fr, x] =
      { mtc_packet_ := p.mtc_packet_
        mtc_buffer_ :=
          { type := (hr >>> 5) &&& 3, hour := hr &&& 0x1F, minute := mn, second := sc,
            frame := fr }
        state := State.Header } := by
    obtain ⟨q, b, s⟩ := p
    subst hp
    simp [feedSeq, feed, clearBuffer, FFM_Header_1, FFM_Header_2, FFM_Channel, FFM_ID_1,
      FFM_ID_2, FFM_EOX, QFM_Header, hx]
  refine ⟨?_, ?_⟩
  · intro k
    rcases Nat.lt_or_ge k 10 with hk | hk
    · exact feedSeq_ffm_take push p hp hr mn sc fr x k hk
    · rw [List.take_of_length_le (by simpa using hk), hfull]
  · rw [hfull]

/-- C3, at the message of C1 with terminator `0x00`. -/
theorem C3_corrupted_terminator_witness :
    idleParser.state = State.Header ∧ (0x00 : Nat) ≠ 0xF7 ∧
      (∀ k, (feedSeq listPush idleParser
        (List.take k [0xF0, 0x7F, 0x7F, 0x01, 0x01, 0x21, 0x05, 0x0A, 0x03, 0x00])).mtc_packet_
          = []) ∧
      (feedSeq listPush idleParser
        [0xF0, 0x7F, 0x7F, 0x01, 0x01, 0x21, 0x05, 0x0A, 0x03, 0x00]).state = State.Header :=
  ⟨rfl, by decide,
    C3_corrupted_terminator listPush idleParser rfl 0x21 0x05 0x0A 0x03 0x00 (by decide)⟩

/-! ## Idle bytes -/

/-- An idle byte fed in state `Header`. -/
theorem feed_idle {Q : Type} (push : Q → MTCPacket → Q) (p : Parser Q)
    (hp : p.state = State.Header) (b : Nat) (h0 : b ≠ 0xF0) (h1 : b ≠ 0xF1) :
    feed push p b =
      { mtc_packet_ := p.mtc_packet_, mtc_buffer_ := clearedBuffer, state := State.Header } := by
  obtain ⟨q, buf, s⟩ := p
  subst hp
  simp [feed, clearBuffer, FFM_Header_1, QFM_Header, h0, h1]

/-- C7. In state `Header`, a byte other than `0xF0` and `0xF1` leaves the queue
unchanged, leaves the state equal to `Header`, and sets every field of the
assembly buffer to `0xFF`. -/
theorem C7_idle_byte_inert {Q : Type} (push : Q → MTCPacket → Q) (p : Parser Q)
    (hp : p.state = State.Header) (b : Nat) (h0 : b ≠ 0xF0) (h1 : b ≠ 0xF1) :
    (feed push p b).mtc_packet_ = p.mtc_packet_ ∧
      (feed push p b).state = State.Header ∧
      (feed push p b).mtc_buffer_.type = 0xFF ∧
      (feed push p b).mtc_buffer_.hour = 0xFF ∧
      (feed push p b).mtc_buffer_.minute = 0xFF ∧
      (feed push p b).mtc_buffer_.second = 0xFF ∧
      (feed push p b).mtc_buffer_.frame = 0xFF := by
  rw [feed_idle push p hp b h0 h1]
  exact ⟨rfl, rfl, rfl, rfl, rfl, rfl, rfl⟩

/-- C7, at the byte `0x42` fed to a decoder in state `Header` whose assembly
buffer holds 1:2:3:4 and whose queue holds one packet. -/
theorem C7_idle_byte_inert_witness :
    (Parser.mk [clearedBuffer] (MTCPacket.mk 0 1 2 3 4) State.Header).state = State.Header ∧
      (0x42 : Nat) ≠ 0xF0 ∧ (0x42 : Nat) ≠ 0xF1 ∧
      (feed listPush (Parser.mk [clearedBuffer] (MTCPacket.mk 0 1 2 3 4) State.Header)
          0x42).mtc_packet_ = [clearedBuffer] ∧
      (feed listPush (Parser.mk [clearedBuffer] (MTCPacket.mk 0 1 2 3 4) State.Header)
          0x42).mtc_buffer_ = MTCPacket.mk 0xFF 0xFF 0xFF 0xFF 0xFF :=
  ⟨rfl, by decide, by decide,
    (C7_idle_byte_inert listPush (Parser.mk [clearedBuffer] (MTCPacket.mk 0 1 2 3 4)
      State.Header) rfl 0x42 (by decide) (by decide)).1, rfl⟩

/-! ## Quarter Frame Messages -/

/-- The index-7 fragment `F1 d` fed to a decoder in state `Header`. -/
theorem feedSeq_qfm_last {Q : Type} (push : Q → MTCPacket → Q) (p : Parser Q)
    (hp : p.state = State.Header) (d : Nat) (hd : qfmIndex d = 7) :
    feedSeq push p [0xF1, d] =
      { mtc_packet_ := push p.mtc_packet_
          { type := (d >>> 1) &&& 3
            hour := p.mtc_buffer_.hour ||| ((d &&& 0x01) <<< 4)
            minute := p.mtc_buffer_.minute
            second := p.mtc_buffer_.second
            frame := p.mtc_buffer_.frame }
        mtc_buffer_ := clearedBuffer
        state := State.Header } := by
  unfold qfmIndex at hd
  rw [feedSeq_qfm_unit push p hp d]
  simp [feedQFM, hd, clearBuffer, QFM_Index_Frame_LSB, QFM_Index_Frame_MSB,
    QFM_Index_Second_LSB, QFM_Index_Second_MSB, QFM_Index_Minute_LSB, QFM_Index_Minute_MSB,
    QFM_Index_Hour_LSB, QFM_Index_Hour_MSB, and15_shr1_and3, and15_mod2]

/-- C8. For a decoder in state `Header` with assembly buffer (t, h, m, s, f) and
a data byte `d` of fragment index 7, feeding `F1 d` performs exactly one push
(none on the `F1`), of the packet with minute m, second s, frame f, hour
`h | ((d&1)<<4)` and type `(d>>1)&3`; afterwards the assembly buffer is all
`0xFF` and the state is `Header`. -/
theorem C8_out_of_order_completion {Q : Type} (push : Q → MTCPacket → Q) (q : Q)
    (t h m s f : Nat) (d : Nat) (hd : qfmIndex d = 7) :
    (feed push ⟨q, ⟨t, h, m, s, f⟩, State.Header⟩ 0xF1).mtc_packet_ = q ∧
      feedSeq push ⟨q, ⟨t, h, m, s, f⟩, State.Header⟩ [0xF1, d] =
        { mtc_packet_ := push q
            { type := (d >>> 1) &&& 3, hour := h ||| ((d &&& 0x01) <<< 4), minute := m,
              second := s, frame := f }
          mtc_buffer_ :=
            { type := 0xFF, hour := 0xFF, minute := 0xFF, second := 0xFF, frame := 0xFF }
          state := State.Header } := by
  refine ⟨?_, ?_⟩
  · simp [feed, FFM_Header_1, QFM_Header]
  · rw [feedSeq_qfm_last push _ rfl d hd]
    rfl

/-- C8, at the fragment `F1 73` (index 7, rate bits 01, hour bit 1) fed to a
decoder whose assembly buffer was just cleared: the pushed packet carries the
unset minute, second and frame. -/
theorem C8_out_of_order_completion_witness :
    qfmIndex 0x73 = 7 ∧
      feedSeq listPush ⟨[], ⟨0xFF, 0x05, 0xFF, 0xFF, 0xFF⟩, State.Header⟩ [0xF1, 0x73] =
        { mtc_packet_ := [⟨1, 0x15, 0xFF, 0xFF, 0xFF⟩]
          mtc_buffer_ := ⟨0xFF, 0xFF, 0xFF, 0xFF, 0xFF⟩
          state := State.Header } :=
  ⟨by decide,
    (C8_out_of_order_completion listPush [] 0xFF 0x05 0xFF 0xFF 0xFF 0x73 (by decide)).2⟩

/-- The packet assembled from the eight fragments of an in-order cycle. -/
theorem feedSeq_qfm_cycle {Q : Type} (push : Q → MTCPacket → Q) (p : Parser Q)
    (hp : p.state = State.Header) (d0 d1 d2 d3 d4 d5 d6 d7 : Nat)
    (h0 : qfmIndex d0 = 0) (h1 : qfmIndex d1 = 1) (h2 : qfmIndex d2 = 2)
    (h3 : qfmIndex d3 = 3) (h4 : qfmIndex d4 = 4) (h5 : qfmIndex d5 = 5)
    (h6 : qfmIndex d6 = 6) (h7 : qfmIndex d7 = 7) :
    feedSeq push p (qfmBytes d0 d1 d2 d3 d4 d5 d6 d7) =
      { mtc_packet_ := push p.mtc_packet_
          { type := (d7 >>> 1) &&& 3
            hour := (d6 &&& 0x0F) ||| ((d7 &&& 0x01) <<< 4)
            minute := (d4 &&& 0x0F) ||| ((d5 &&& 0x03) <<< 4)
            second := (d2 &&& 0x0F) ||| ((d3 &&& 0x03) <<< 4)
            frame := (d0 &&& 0x0F) ||| ((d1 &&& 0x01) <<< 4) }
        mtc_buffer_ := clearedBuffer
        state := State.Header } := by
  unfold qfmIndex at h0 h1 h2 h3 h4 h5 h6 h7
  obtain ⟨q, b, s⟩ := p
  subst hp
  simp [feedSeq, qfmBytes, feed, feedQFM, clearBuffer, FFM_Header_1, QFM_Header,
    QFM_Index_Frame_LSB, QFM_Index_Frame_MSB,
    QFM_Index_Second_LSB, QFM_Index_Second_MSB, QFM_Index_Minute_LSB, QFM_Index_Minute_MSB,
    QFM_Index_Hour_LSB, QFM_Index_Hour_MSB, h0, h1, h2, h3, h4, h5, h6, h7,
    and15_shr1_and3, and15_and15, and15_and3, and15_mod2]

/-- No byte of an in-order cycle before the last one touches the queue. -/
theorem feedSeq_qfm_cycle_take {Q : Type} (push : Q → MTCPacket → Q) (p : Parser Q)
    (hp : p.state = State.Header) (d0 d1 d2 d3 d4 d5 d6 d7 : Nat)
    (h0 : qfmIndex d0 = 0) (h1 : qfmIndex d1 = 1) (h2 : qfmIndex d2 = 2)
    (h3 : qfmIndex d3 = 3) (h4 : qfmIndex d4 = 4) (h5 : qfmIndex d5 = 5)
    (h6 : qfmIndex d6 = 6) (k : Nat) (hk : k < 16) :
    (feedSeq push p (List.take k (qfmBytes d0 d1 d2 d3 d4 d5 d6 d7))).mtc_packet_
      = p.mtc_packet_ := by
  unfold qfmIndex at h0 h1 h2 h3 h4 h5 h6
  obtain ⟨q, b, s⟩ := p
  subst hp
  interval_cases k <;>
    simp [feedSeq, qfmBytes, feed, feedQFM, clearBuffer, FFM_Header_1, QFM_Header,
      QFM_Index_Frame_LSB, QFM_Index_Frame_MSB,
      QFM_Index_Second_LSB, QFM_Index_Second_MSB, QFM_Index_Minute_LSB, QFM_Index_Minute_MSB,
      QFM_Index_Hour_LSB, QFM_Index_Hour_MSB, h0, h1, h2, h3, h4, h5, h6]

/-- C2. For a decoder in state `Header` (any assembly buffer) and data bytes
d0..d7 where di has fragment index i, feeding `F1 d0 F1 d1 ... F1 d7` performs
exactly one push, on the last byte of the eighth unit, of the packet with
frame `(d0&0x0F) | ((d1&0x01)<<4)`, second `(d2&0x0F) | ((d3&0x03)<<4)`,
minute `(d4&0x0F) | ((d5&0x03)<<4)`, hour `(d6&0x0F) | ((d7&0x01)<<4)` and type
`(d7>>1)&3`; afterwards the assembly buffer is all `0xFF` and the state is
`Header`. -/
theorem C2_quarter_frame_cycle {Q : Type} (push : Q → MTCPacket → Q) (p : Parser Q)
    (hp : p.state = State.Header) (d0 d1 d2 d3 d4 d5 d6 d7 : Nat)
    (h0 : qfmIndex d0 = 0) (h1 : qfmIndex d1 = 1) (h2 : qfmIndex d2 = 2)
    (h3 : qfmIndex d3 = 3) (h4 : qfmIndex d4 = 4) (h5 : qfmIndex d5 = 5)
    (h6 : qfmIndex d6 = 6) (h7 : qfmIndex d7 = 7) :
    (∀ k, k < 16 →
        (feedSeq push p (List.take k (qfmBytes d0 d1 d2 d3 d4 d5 d6 d7))).mtc_packet_
          = p.mtc_packet_) ∧
      feedSeq push p (qfmBytes d0 d1 d2 d3 d4 d5 d6 d7) =
        { mtc_packet_ := push p.mtc_packet_
            { type := (d7 >>> 1) &&& 3
              hour := (d6 &&& 0x0F) ||| ((d7 &&& 0x01) <<< 4)
              minute := (d4 &&& 0x0F) ||| ((d5 &&& 0x03) <<< 4)
              second := (d2 &&& 0x0F) ||| ((d3 &&& 0x03) <<< 4)
              frame := (d0 &&& 0x0F) ||| ((d1 &&& 0x01) <<< 4) }
          mtc_buffer_ :=
            { type := 0xFF, hour := 0xFF, minute := 0xFF, second := 0xFF, frame := 0xFF }
          state := State.Header } :=
  ⟨fun k hk => feedSeq_qfm_cycle_take push p hp d0 d1 d2 d3 d4 d5 d6 d7 h0 h1 h2 h3 h4 h5 h6 k hk,
    feedSeq_qfm_cycle push p hp d0 d1 d2 d3 d4 d5 d6 d7 h0 h1 h2 h3 h4 h5 h6 h7⟩

/-- C2, at the cycle carrying 25 fps 21:59:58:24, fed to a decoder whose assembly
buffer holds leftovers. -/
theorem C2_quarter_frame_cycle_witness :
    (Parser.mk ([] : List MTCPacket) (MTCPacket.mk 3 9 9 9 9) State.Header).state
        = State.Header ∧
      qfmIndex 0x08 = 0 ∧ qfmIndex 0x11 = 1 ∧ qfmIndex 0x2A = 2 ∧ qfmIndex 0x33 = 3 ∧
      qfmIndex 0x4B = 4 ∧ qfmIndex 0x53 = 5 ∧ qfmIndex 0x65 = 6 ∧ qfmIndex 0x73 = 7 ∧
      feedSeq listPush (Parser.mk [] (MTCPacket.mk 3 9 9 9 9) State.Header)
          (qfmBytes 0x08 0x11 0x2A 0x33 0x4B 0x53 0x65 0x73) =
        { mtc_packet_ := [{ type := 1, hour := 21, minute := 59, second := 58, frame := 24 }]
          mtc_buffer_ := clearedBuffer
          state := State.Header } :=
  ⟨rfl, by decide, by decide, by decide, by decide, by decide, by decide, by decide,
    by decide,
    (C2_quarter_frame_cycle listPush (Parser.mk [] (MTCPacket.mk 3 9 9 9 9) State.Header) rfl
      0x08 0x11 0x2A 0x33 0x4B 0x53 0x65 0x73 (by decide) (by decide) (by decide) (by decide)
      (by decide) (by decide) (by decide) (by decide)).2⟩

/-! ## Block feed -/

/-- The loop from index `i` feeds the bytes `data[i]`, ..., `data[size-1]` in order. -/
theorem feedLoop_eq {Q : Type} (push : Q → MTCPacket → Q) (data : List Nat) (size : Nat) :
    ∀ (n i : Nat) (p : Parser Q), size - i = n →
      feedLoop push data size i p =
        feedSeq push p ((List.range' i n).map (fun j => data.getD j 0)) := by
  intro n
  induction n with
  | zero =>
    intro i p h
    rw [feedLoop, if_neg (by omega)]
    rfl
  | succ n ih =>
    intro i p h
    rw [feedLoop, if_pos (by omega), ih (i + 1) _ (by omega)]
    rfl

/-- Reading the first `length` cells of an array gives the array. -/
theorem map_getD_range (data : List Nat) :
    (List.range' 0 data.length).map (fun j => data.getD j 0) = data := by
  apply List.ext_getElem
  · simp
  · intro i h1 h2
    simp [List.getD_eq_getElem?_getD, List.getElem?_eq_getElem h2]

/-- The block feed over exactly the bytes of a list. -/
theorem feedBlock_length {Q : Type} (push : Q → MTCPacket → Q) (p : Parser Q)
    (data : List Nat) : feedBlock push p data data.length = feedSeq push p data := by
  unfold feedBlock
  rw [feedLoop_eq push data data.length data.length 0 p (by omega), map_getD_range]

/-- C9. For every decoder and every byte array, `feed(data, size)` produces the
same decoder (state, assembly buffer and queue) as the calls `feed(data[0])`, ...,
`feed(data[size-1])` in order; with `size` the length of the array these are the
calls for the bytes of the array; and feeding a block `a` and then a block `b`
gives the same decoder as feeding `a ++ b` in one call. -/
theorem C9_block_feed_is_bytewise {Q : Type} (push : Q → MTCPacket → Q) (p : Parser Q)
    (data a b : List Nat) (size : Nat) :
    feedBlock push p data size =
        feedSeq push p ((List.range' 0 size).map (fun j => data.getD j 0)) ∧
      feedBlock push p data data.length = feedSeq push p data ∧
      feedBlock push (feedBlock push p a a.length) b b.length =
        feedBlock push p (a ++ b) (a ++ b).length := by
  refine ⟨?_, feedBlock_length push p data, ?_⟩
  · exact feedLoop_eq push data size size 0 p (by omega)
  · rw [feedBlock_length, feedBlock_length, feedBlock_length, feedSeq_append]

/-! ## Rendering -/

theorem digitChar_ne_semicolon (k : Nat) (hk : k < 10) : Nat.digitChar k ≠ ';' := by
  interval_cases k <;> decide

theorem toDigitsCore_no_semicolon (fuel : Nat) :
    ∀ (n : Nat) (ds : List Char), (∀ c ∈ ds, c ≠ ';') →
      ∀ c ∈ Nat.toDigitsCore 10 fuel n ds, c ≠ ';' := by
  induction fuel with
  | zero => intro n ds h; simpa [Nat.toDigitsCore] using h
  | succ fuel ih =>
    intro n ds h
    have hd : ∀ c ∈ Nat.digitChar (n % 10) :: ds, c ≠ ';' := by
      intro c hc
      rcases List.mem_cons.mp hc with rfl | hc
      · exact digitChar_ne_semicolon _ (Nat.mod_lt _ (by decide))
      · exact h c hc
    simp only [Nat.toDigitsCore]
    split_ifs
    · exact hd
    · exact ih _ _ hd

/-- A decimal rendering contains no semicolon. -/
theorem to_string_no_semicolon (n : Nat) : ';' ∉ (to_string n).toList := by
  intro h
  exact toDigitsCore_no_semicolon (n + 1) n [] (by simp) ';'
    (by simpa [to_string, Nat.repr, Nat.toDigits] using h) rfl

/-- C10. `asString()` is the decimal renderings of hour, minute, second and frame
of the front packet joined as `H:M:S:F` when its type is 0, 1 or 3 and as
`H:M:S;F` when its type is 2; the result contains the character `;` if and only
if the type is 2. -/
theorem C10_asString_rendering {Q : Type} (front : Q → MTCPacket) (p : Parser Q) :
    ((front p.mtc_packet_).type = 2 →
        asString front p =
          to_string (front p.mtc_packet_).hour ++ ":" ++
            to_string (front p.mtc_packet_).minute ++ ":" ++
            to_string (front p.mtc_packet_).second ++ ";" ++
            to_string (front p.mtc_packet_).frame) ∧
      ((front p.mtc_packet_).type = 0 ∨ (front p.mtc_packet_).type = 1 ∨
          (front p.mtc_packet_).type = 3 →
        asString front p =
          to_string (front p.mtc_packet_).hour ++ ":" ++
            to_string (front p.mtc_packet_).minute ++ ":" ++
            to_string (front p.mtc_packet_).second ++ ":" ++
            to_string (front p.mtc_packet_).frame) ∧
      (';' ∈ (asString front p).toList ↔ (front p.mtc_packet_).type = 2) := by
  have hh := to_string_no_semicolon (front p.mtc_packet_).hour
  have hm := to_string_no_semicolon (front p.mtc_packet_).minute
  have hs := to_string_no_semicolon (front p.mtc_packet_).second
  have hf := to_string_no_semicolon (front p.mtc_packet_).frame
  refine ⟨?_, ?_, ?_⟩
  · intro h
    simp [asString, type, hour, minute, second, frame, FPS_29_97, h]
  · intro h
    have h2 : (front p.mtc_packet_).type ≠ 2 := by omega
    simp [asString, type, hour, minute, second, frame, FPS_29_97, h2]
  · by_cases h : (front p.mtc_packet_).type = 2
    · simp [asString, type, hour, minute, second, frame, FPS_29_97, h]
    · simp [asString, type, hour, minute, second, frame, FPS_29_97, h]
      exact ⟨hh, hm, hs, hf⟩

/-- C10, at the front packets 29.97 fps 1:5:10;3 and 25 fps 1:5:10:3. -/
theorem C10_asString_rendering_witness :
    (listFront [MTCPacket.mk 2 1 5 10 3]).type = 2 ∧
      asString listFront (Parser.mk [MTCPacket.mk 2 1 5 10 3] clearedBuffer State.Header)
        = "1:5:10;3" ∧
      ((listFront [MTCPacket.mk 1 1 5 10 3]).type = 0 ∨
        (listFront [MTCPacket.mk 1 1 5 10 3]).type = 1 ∨
        (listFront [MTCPacket.mk 1 1 5 10 3]).type = 3) ∧
      asString listFront (Parser.mk [MTCPacket.mk 1 1 5 10 3] clearedBuffer State.Header)
        = "1:5:10:3" :=
  ⟨rfl,
    (C10_asString_rendering listFront
      (Parser.mk [MTCPacket.mk 2 1 5 10 3] clearedBuffer State.Header)).1 rfl,
    Or.inr (Or.inl rfl),
    (C10_asString_rendering listFront
      (Parser.mk [MTCPacket.mk 1 1 5 10 3] clearedBuffer State.Header)).2.1
        (Or.inr (Or.inl rfl))⟩

/-! ## Completeness of pushed packets -/

theorem okByte_ne_ff (b : Nat) (hb : okByte b) : b ≠ 0xFF := by
  unfold okByte at hb; omega

/-- One byte preserves `assemblyInv`. -/
theorem assemblyInv_feed {Q : Type} (push : Q → MTCPacket → Q) (p : Parser Q) (b : Nat)
    (hb : okByte b) (h : assemblyInv p.state p.mtc_buffer_) :
    assemblyInv (feed push p b).state (feed push p b).mtc_buffer_ := by
  have hff := okByte_ne_ff b hb
  obtain ⟨q, t, s⟩ := p
  obtain ⟨ty, hr, mn, sc, fr⟩ := t
  cases s
  case QFM_Value =>
    simp only [assemblyInv] at h
    simp only [feed, feedQFM, clearBuffer, clearedBuffer]
    split_ifs <;> simp [assemblyInv, h.1]
    simp only [and15_eq_mod]
    omega
  all_goals
    simp only [assemblyInv] at h
    simp only [feed, clearBuffer, clearedBuffer]
    try split_ifs
    all_goals simp [assemblyInv, and31_eq_mod, and3_eq_mod]
    all_goals omega

/-- A stream of bytes preserves `assemblyInv`. -/
theorem assemblyInv_feedSeq {Q : Type} (push : Q → MTCPacket → Q) (bs : List Nat) :
    ∀ (p : Parser Q), (∀ b ∈ bs, okByte b) → assemblyInv p.state p.mtc_buffer_ →
      assemblyInv (feedSeq push p bs).state (feedSeq push p bs).mtc_buffer_ := by
  induction bs with
  | nil => intro p _ h; exact h
  | cons b bs ih =>
    intro p hbs h
    rw [feedSeq_cons]
    exact ih _ (fun c hc => hbs c (List.mem_cons_of_mem b hc))
      (assemblyInv_feed push p b (hbs b (List.mem_cons_self b bs)) h)

/-- The hour pushed by an index-7 fragment is `0xFF` exactly when the hour of the
assembly buffer is. -/
theorem hour_merge_ne_ff (h d : Nat) (hh : h < 0x20 ∨ h = 0xFF) :
    h ||| ((d &&& 0x01) <<< 4) ≠ 0xFF ↔ h ≠ 0xFF := by
  have hd : d &&& 1 = 0 ∨ d &&& 1 = 1 := by rw [and1_eq_mod]; omega
  rcases hh with hh | hh
  · have h1 : h ||| ((d &&& 0x01) <<< 4) < 2 ^ 5 := by
      apply Nat.or_lt_two_pow
      · simpa using hh
      · rcases hd with hd | hd <;> rw [hd] <;> decide
    constructor
    · intro _; omega
    · intro _; omega
  · subst hh
    rcases hd with hd | hd <;> rw [hd] <;> decide

/-- The steps of `feed` that push nothing. -/
theorem feed_no_push {Q : Type} (push : Q → MTCPacket → Q) (p : Parser Q) (b : Nat)
    (h1 : p.state ≠ State.FFM_EOX ∨ b ≠ 0xF7)
    (h2 : p.state ≠ State.QFM_Value ∨ qfmIndex b ≠ 7) :
    (feed push p b).mtc_packet_ = p.mtc_packet_ := by
  obtain ⟨q, t, s⟩ := p
  cases s
  case FFM_EOX =>
    have hb : b ≠ 0xF7 := by simpa using h1
    simp [feed, FFM_EOX, hb]
  case QFM_Value =>
    have hb : ¬ (b >>> 4 &&& 7 = 7) := by simpa [qfmIndex] using h2
    simp only [feed, feedQFM, clearBuffer, QFM_Index_Hour_MSB]
    split_ifs <;> rfl
  all_goals
    simp only [feed, clearBuffer]
    try split_ifs
    all_goals rfl

/-- C4 (amended). Let a decoder in state `Header`, whose assembly-buffer hour is
unset (`0xFF`) or below `0x20`, be fed any bytes each of which is below `0x80`
or one of `F0`, `F1`, `F7`, and let `b` be the next byte.
(a) If the decoder is now in `FFM_EOX`, the byte `F7` pushes the assembly
buffer, and none of its fields is `0xFF`.
(b) If it is in `QFM_Value` and `b` has fragment index 7, `b` pushes a packet of
type at most 3 whose minute, second and frame are those of the assembly buffer
and whose hour is the buffer hour merged with bit 0 of `b`; this packet is free
of `0xFF` exactly when the hour, minute, second and frame of the assembly
buffer are all set.
(c) In every other case `b` pushes nothing. -/
theorem C4_pushed_packets {Q : Type} (push : Q → MTCPacket → Q) (p0 : Parser Q)
    (bs : List Nat) (b : Nat) (hstate : p0.state = State.Header)
    (hhour : p0.mtc_buffer_.hour < 0x20 ∨ p0.mtc_buffer_.hour = 0xFF)
    (hbs : ∀ c ∈ bs, okByte c) :
    ((feedSeq push p0 bs).state = State.FFM_EOX →
        (feed push (feedSeq push p0 bs) 0xF7).mtc_packet_ =
            push (feedSeq push p0 bs).mtc_packet_ (feedSeq push p0 bs).mtc_buffer_ ∧
          noSentinel (feedSeq push p0 bs).mtc_buffer_) ∧
      ((feedSeq push p0 bs).state = State.QFM_Value → qfmIndex b = 7 →
        (feed push (feedSeq push p0 bs) b).mtc_packet_ =
            push (feedSeq push p0 bs).mtc_packet_
              { type := (b >>> 1) &&& 3
                hour := (feedSeq push p0 bs).mtc_buffer_.hour ||| ((b &&& 0x01) <<< 4)
                minute := (feedSeq push p0 bs).mtc_buffer_.minute
                second := (feedSeq push p0 bs).mtc_buffer_.second
                frame := (feedSeq push p0 bs).mtc_buffer_.frame } ∧
          (b >>> 1) &&& 3 ≤ 3 ∧
          (noSentinel
              { type := (b >>> 1) &&& 3
                hour := (feedSeq push p0 bs).mtc_buffer_.hour ||| ((b &&& 0x01) <<< 4)
                minute := (feedSeq push p0 bs).mtc_buffer_.minute
                second := (feedSeq push p0 bs).mtc_buffer_.second
                frame := (feedSeq push p0 bs).mtc_buffer_.frame } ↔
            (feedSeq push p0 bs).mtc_buffer_.hour ≠ 0xFF ∧
              (feedSeq push p0 bs).mtc_buffer_.minute ≠ 0xFF ∧
              (feedSeq push p0 bs).mtc_buffer_.second ≠ 0xFF ∧
              (feedSeq push p0 bs).mtc_buffer_.frame ≠ 0xFF)) ∧
      ((feedSeq push p0 bs).state ≠ State.FFM_EOX ∨ b ≠ 0xF7 →
        (feedSeq push p0 bs).state ≠ State.QFM_Value ∨ qfmIndex b ≠ 7 →
        (feed push (feedSeq push p0 bs) b).mtc_packet_ = (feedSeq push p0 bs).mtc_packet_) := by
  have hinv : assemblyInv (feedSeq push p0 bs).state (feedSeq push p0 bs).mtc_buffer_ := by
    apply assemblyInv_feedSeq push bs p0 hbs
    rw [hstate]
    exact ⟨hhour, trivial⟩
  generalize feedSeq push p0 bs = p at hinv ⊢
  obtain ⟨q, t, s⟩ := p
  refine ⟨?_, ?_, feed_no_push push _ b⟩
  · intro hs
    simp only at hs
    subst hs
    simp only [assemblyInv] at hinv
    refine ⟨by simp [feed, FFM_EOX], ?_⟩
    show noSentinel t
    unfold noSentinel
    omega
  · intro hs hb
    simp only at hs
    subst hs
    have ht : (b >>> 1) &&& 3 ≤ 3 := by rw [and3_eq_mod]; omega
    have hh := hour_merge_ne_ff t.hour b hinv.1
    have hq := feedSeq_qfm_last push ⟨q, t, State.Header⟩ rfl b hb
    refine ⟨?_, ht, ?_⟩
    · have hq2 := congrArg Parser.mtc_packet_ hq
      simpa [feedSeq, feed, FFM_Header_1, QFM_Header] using hq2
    · unfold noSentinel
      simp only [hh]
      constructor
      · intro h; exact h.2
      · intro h; exact ⟨by omega, h⟩

/-- C4, as stated, fails: the stream `00 F1 70` (an idle byte, then the index-7
fragment alone) makes the decoder push a packet whose hour, minute, second and
frame are all `0xFF`. -/
theorem C4_counterexample :
    idleParser.state = State.Header ∧
      (∀ c ∈ [0x00, 0xF1, 0x70], okByte c) ∧
      (feedSeq listPush idleParser [0x00, 0xF1, 0x70]).mtc_packet_ =
        [{ type := 0, hour := 0xFF, minute := 0xFF, second := 0xFF, frame := 0xFF }] ∧
      ¬ noSentinel { type := 0, hour := 0xFF, minute := 0xFF, second := 0xFF, frame := 0xFF } := by
  refine ⟨rfl, by decide, rfl, by decide⟩

/-- C4 (amended), at the stream `F0 7F 7F 01 01 21 05 0A 03`, which leaves the
decoder in `FFM_EOX`: the packet that `F7` pushes is complete. -/
theorem C4_pushed_packets_witness :
    idleParser.state = State.Header ∧
      (idleParser.mtc_buffer_.hour < 0x20 ∨ idleParser.mtc_buffer_.hour = 0xFF) ∧
      (∀ c ∈ [0xF0, 0x7F, 0x7F, 0x01, 0x01, 0x21, 0x05, 0x0A, 0x03], okByte c) ∧
      (feedSeq listPush idleParser
        [0xF0, 0x7F, 0x7F, 0x01, 0x01, 0x21, 0x05, 0x0A, 0x03]).state = State.FFM_EOX ∧
      noSentinel (feedSeq listPush idleParser
        [0xF0, 0x7F, 0x7F, 0x01, 0x01, 0x21, 0x05, 0x0A, 0x03]).mtc_buffer_ :=
  ⟨rfl, Or.inr rfl, by decide, rfl,
    ((C4_pushed_packets listPush idleParser
      [0xF0, 0x7F, 0x7F, 0x01, 0x01, 0x21, 0x05, 0x0A, 0x03] 0xF7 rfl (Or.inr rfl)
      (by decide)).1 rfl).2⟩

/-! ## Bytes between messages -/

/-- C5 (amended). Let the decoder be in state `Header` and `g` be a byte other
than `0xF0` and `0xF1`.  Inserting `g` in front of the rest of the stream leaves
the final decoder (state, assembly buffer and queue, hence the packets pushed)
unchanged in each of these cases: (a) the assembly buffer is all `0xFF`, for any
rest of the stream; (b) the rest of the stream starts with `F0`; (c) the rest of
the stream starts with a complete in-order cycle of eight Quarter Frame units. -/
theorem C5_garbage_between_messages {Q : Type} (push : Q → MTCPacket → Q) (p : Parser Q)
    (g : Nat) (post : List Nat) (d0 d1 d2 d3 d4 d5 d6 d7 : Nat)
    (hp : p.state = State.Header) (hg0 : g ≠ 0xF0) (hg1 : g ≠ 0xF1) :
    (p.mtc_buffer_ = clearedBuffer → feedSeq push p (g :: post) = feedSeq push p post) ∧
      feedSeq push p (g :: 0xF0 :: post) = feedSeq push p (0xF0 :: post) ∧
      (qfmIndex d0 = 0 → qfmIndex d1 = 1 → qfmIndex d2 = 2 → qfmIndex d3 = 3 →
        qfmIndex d4 = 4 → qfmIndex d5 = 5 → qfmIndex d6 = 6 → qfmIndex d7 = 7 →
        feedSeq push p (g :: (qfmBytes d0 d1 d2 d3 d4 d5 d6 d7 ++ post)) =
          feedSeq push p (qfmBytes d0 d1 d2 d3 d4 d5 d6 d7 ++ post)) := by
  have hg := feed_idle push p hp g hg0 hg1
  refine ⟨?_, ?_, ?_⟩
  · intro hb
    rw [feedSeq_cons, hg]
    obtain ⟨q, t, s⟩ := p
    simp only at hb hp
    subst hb hp
    rfl
  · rw [feedSeq_cons, feedSeq_cons, feedSeq_cons, hg]
    obtain ⟨q, t, s⟩ := p
    simp only at hp
    subst hp
    rfl
  · intro h0 h1 h2 h3 h4 h5 h6 h7
    rw [feedSeq_cons, feedSeq_append, feedSeq_append, hg,
      feedSeq_qfm_cycle push _ rfl d0 d1 d2 d3 d4 d5 d6 d7 h0 h1 h2 h3 h4 h5 h6 h7,
      feedSeq_qfm_cycle push p hp d0 d1 d2 d3 d4 d5 d6 d7 h0 h1 h2 h3 h4 h5 h6 h7]

/-- C5, as stated, fails: the idle byte `00` inserted after the first unit of the
in-order cycle carrying 24 fps 4:3:2:1 (the decoder is in `Header` there) turns
the frame of the pushed packet from 1 into `0xFF`. -/
theorem C5_counterexample :
    (0x00 : Nat) ≠ 0xF0 ∧ (0x00 : Nat) ≠ 0xF1 ∧
      (feedSeq listPush idleParser [0xF1, 0x01]).state = State.Header ∧
      (feedSeq listPush idleParser
        ([0xF1, 0x01] ++
          [0xF1, 0x10, 0xF1, 0x22, 0xF1, 0x30, 0xF1, 0x43, 0xF1, 0x50, 0xF1, 0x64, 0xF1, 0x70])
        ).mtc_packet_ = [{ type := 0, hour := 4, minute := 3, second := 2, frame := 1 }] ∧
      (feedSeq listPush idleParser
        ([0xF1, 0x01] ++ 0x00 ::
          [0xF1, 0x10, 0xF1, 0x22, 0xF1, 0x30, 0xF1, 0x43, 0xF1, 0x50, 0xF1, 0x64, 0xF1, 0x70])
        ).mtc_packet_ = [{ type := 0, hour := 4, minute := 3, second := 2, frame := 0xFF }] := by
  refine ⟨by decide, by decide, rfl, rfl, rfl⟩

/-- C5 (amended), at the idle byte `00` inserted in front of the cycle carrying
24 fps 4:3:2:1, for a decoder whose assembly buffer holds leftovers. -/
theorem C5_garbage_between_messages_witness :
    (Parser.mk ([] : List MTCPacket) (MTCPacket.mk 3 9 9 9 9) State.Header).state
        = State.Header ∧
      (0x00 : Nat) ≠ 0xF0 ∧ (0x00 : Nat) ≠ 0xF1 ∧
      qfmIndex 0x01 = 0 ∧ qfmIndex 0x10 = 1 ∧ qfmIndex 0x22 = 2 ∧ qfmIndex 0x30 = 3 ∧
      qfmIndex 0x43 = 4 ∧ qfmIndex 0x50 = 5 ∧ qfmIndex 0x64 = 6 ∧ qfmIndex 0x70 = 7 ∧
      feedSeq listPush (Parser.mk [] (MTCPacket.mk 3 9 9 9 9) State.Header)
          (0x00 :: (qfmBytes 0x01 0x10 0x22 0x30 0x43 0x50 0x64 0x70 ++ [0xF1])) =
        feedSeq listPush (Parser.mk [] (MTCPacket.mk 3 9 9 9 9) State.Header)
          (qfmBytes 0x01 0x10 0x22 0x30 0x43 0x50 0x64 0x70 ++ [0xF1]) :=
  ⟨rfl, by decide, by decide, by decide, by decide, by decide, by decide, by decide,
    by decide, by decide, by decide,
    (C5_garbage_between_messages listPush
      (Parser.mk [] (MTCPacket.mk 3 9 9 9 9) State.Header) 0x00 [0xF1]
      0x01 0x10 0x22 0x30 0x43 0x50 0x64 0x70 rfl (by decide) (by decide)).2.2
      (by decide) (by decide) (by decide) (by decide) (by decide) (by decide) (by decide)
      (by decide)⟩

/-! ## Truncated Full Frame Messages -/

/-- A Full Frame Message cut after `k` bytes (1 to 9) followed by a complete one
whose data bytes are below `0x80`: the decoder returns to `Header` having pushed
nothing. -/
theorem feedSeq_truncated_then_ffm {Q : Type} (push : Q → MTCPacket → Q) (p : Parser Q)
    (hp : p.state = State.Header) (hr mn sc fr : Nat) (k : Nat) (hk1 : 1 ≤ k) (hk9 : k ≤ 9)
    (hr2 mn2 sc2 fr2 : Nat) (hhr : hr2 < 0x80) (hmn : mn2 < 0x80) (hsc : sc2 < 0x80)
    (hfr : fr2 < 0x80) :
    (feedSeq push p (List.take k (ffmBytes hr mn sc fr) ++ ffmBytes hr2 mn2 sc2 fr2)).mtc_packet_
        = p.mtc_packet_ ∧
      (feedSeq push p (List.take k (ffmBytes hr mn sc fr) ++ ffmBytes hr2 mn2 sc2 fr2)).state
        = State.Header := by
  have a1 : hr2 ≠ 240 := by omega
  have a2 : hr2 ≠ 241 := by omega
  have a3 : mn2 ≠ 240 := by omega
  have a4 : mn2 ≠ 241 := by omega
  have a5 : sc2 ≠ 240 := by omega
  have a6 : sc2 ≠ 241 := by omega
  have a7 : fr2 ≠ 240 := by omega
  have a8 : fr2 ≠ 241 := by omega
  obtain ⟨q, t, s⟩ := p
  simp only at hp
  subst hp
  interval_cases k <;>
    simp [feedSeq, ffmBytes, feed, clearBuffer, FFM_Header_1, FFM_Header_2, FFM_Channel,
      FFM_ID_1, FFM_ID_2, FFM_EOX, QFM_Header, a1, a2, a3, a4, a5, a6, a7, a8]

/-- C6 (amended). After a Full Frame Message cut after 1 to 9 bytes, fed to a
decoder in state `Header`, a complete valid Full Frame Message (data bytes
below `0x80`) fed immediately afterwards pushes no packet and leaves the
decoder in state `Header`; the complete Full Frame Message after that one
pushes exactly one packet, carrying its type, hour, minute, second and frame. -/
theorem C6_recovery_after_truncation {Q : Type} (push : Q → MTCPacket → Q) (p : Parser Q)
    (hp : p.state = State.Header) (hr mn sc fr : Nat) (k : Nat) (hk1 : 1 ≤ k) (hk9 : k ≤ 9)
    (hr2 mn2 sc2 fr2 : Nat) (hhr : hr2 < 0x80) (hmn : mn2 < 0x80) (hsc : sc2 < 0x80)
    (hfr : fr2 < 0x80) (hr3 mn3 sc3 fr3 : Nat) :
    (feedSeq push p (List.take k (ffmBytes hr mn sc fr) ++ ffmBytes hr2 mn2 sc2 fr2)).mtc_packet_
        = p.mtc_packet_ ∧
      (feedSeq push p (List.take k (ffmBytes hr mn sc fr) ++ ffmBytes hr2 mn2 sc2 fr2)).state
        = State.Header ∧
      (feedSeq push p
        ((List.take k (ffmBytes hr mn sc fr) ++ ffmBytes hr2 mn2 sc2 fr2) ++
          ffmBytes hr3 mn3 sc3 fr3)).mtc_packet_ =
        push p.mtc_packet_
          { type := (hr3 >>> 5) &&& 3, hour := hr3 &&& 0x1F, minute := mn3, second := sc3,
            frame := fr3 } := by
  have h := feedSeq_truncated_then_ffm push p hp hr mn sc fr k hk1 hk9 hr2 mn2 sc2 fr2
    hhr hmn hsc hfr
  refine ⟨h.1, h.2, ?_⟩
  rw [feedSeq_append, feedSeq_ffm push _ h.2, h.1]

/-- C6, as stated, fails: after the one-byte truncation `F0`, and after the
nine-byte truncation `F0 7F 7F 01 01 21 05 0A 03`, the complete message
`F0 7F 7F 01 01 21 05 0A 03 F7` pushes no packet. -/
theorem C6_counterexample :
    idleParser.state = State.Header ∧
      (feedSeq listPush idleParser
        (List.take 1 (ffmBytes 0x21 0x05 0x0A 0x03) ++ ffmBytes 0x21 0x05 0x0A 0x03)).mtc_packet_
        = [] ∧
      (feedSeq listPush idleParser
        (List.take 9 (ffmBytes 0x21 0x05 0x0A 0x03) ++ ffmBytes 0x21 0x05 0x0A 0x03)).mtc_packet_
        = [] := by
  refine ⟨rfl, rfl, rfl⟩

/-- C6 (amended), at the truncation `F0 7F 7F` followed by the messages carrying
25 fps 1:5:10:3 and 30 fps 2:6:11:4. -/
theorem C6_recovery_after_truncation_witness :
    idleParser.state = State.Header ∧ 1 ≤ 3 ∧ 3 ≤ 9 ∧
      (0x21 : Nat) < 0x80 ∧ (0x05 : Nat) < 0x80 ∧ (0x0A : Nat) < 0x80 ∧ (0x03 : Nat) < 0x80 ∧
      (feedSeq listPush idleParser
        (List.take 3 (ffmBytes 0 0 0 0) ++ ffmBytes 0x21 0x05 0x0A 0x03)).mtc_packet_ = [] ∧
      (feedSeq listPush idleParser
        ((List.take 3 (ffmBytes 0 0 0 0) ++ ffmBytes 0x21 0x05 0x0A 0x03) ++
          ffmBytes 0x62 0x06 0x0B 0x04)).mtc_packet_ =
        [{ type := 3, hour := 2, minute := 6, second := 11, frame := 4 }] :=
  ⟨rfl, by decide, by decide, by decide, by decide, by decide, by decide,
    (C6_recovery_after_truncation listPush idleParser rfl 0 0 0 0 3 (by decide) (by decide)
      0x21 0x05 0x0A 0x03 (by decide) (by decide) (by decide) (by decide)
      0x62 0x06 0x0B 0x04).1,
    (C6_recovery_after_truncation listPush idleParser rfl 0 0 0 0 3 (by decide) (by decide)
      0x21 0x05 0x0A 0x03 (by decide) (by decide) (by decide) (by decide)
      0x62 0x06 0x0B 0x04).2.2⟩

/-! ## Time conversions -/

/-- The front packet of a one-packet list queue. -/
theorem asSeconds_one_second :
    asSeconds listFront (Parser.mk [MTCPacket.mk 1 0 0 1 0] clearedBuffer State.Header) = 1 := by
  simp [asSeconds, listFront, MTCFrameSecond, MTCFrameRate]

/-- With exact arithmetic, `asMillis()` is a thousandth of `asSeconds()` and
`asMicros()` a millionth. -/
theorem asMillis_asMicros_eq {Q : Type} (front : Q → MTCPacket) (p : Parser Q) :
    asMillis front p = asSeconds front p / 1000 ∧
      asMicros front p = asSeconds front p / 1000000 := by
  unfold asMicros asMillis
  constructor <;> norm_num <;> ring

/-- C11. The code at the front packet 25 fps 0:0:1:0, with exact arithmetic:
`asSeconds()` is 1, `asMillis()` is 1/1000 and not 1000, `asMicros()` is
1/1000000 and not 1000000. -/
theorem C11_scale_at_one_second :
    asSeconds listFront (Parser.mk [MTCPacket.mk 1 0 0 1 0] clearedBuffer State.Header) = 1 ∧
      asMillis listFront (Parser.mk [MTCPacket.mk 1 0 0 1 0] clearedBuffer State.Header)
        = 1 / 1000 ∧
      asMicros listFront (Parser.mk [MTCPacket.mk 1 0 0 1 0] clearedBuffer State.Header)
        = 1 / 1000000 ∧
      asMillis listFront (Parser.mk [MTCPacket.mk 1 0 0 1 0] clearedBuffer State.Header) ≠
        asSeconds listFront (Parser.mk [MTCPacket.mk 1 0 0 1 0] clearedBuffer State.Header)
          * 1000 ∧
      asMicros listFront (Parser.mk [MTCPacket.mk 1 0 0 1 0] clearedBuffer State.Header) ≠
        asSeconds listFront (Parser.mk [MTCPacket.mk 1 0 0 1 0] clearedBuffer State.Header)
          * 1000000 := by
  have h := asMillis_asMicros_eq listFront
    (Parser.mk [MTCPacket.mk 1 0 0 1 0] clearedBuffer State.Header)
  rw [asSeconds_one_second] at h
  rw [h.1, h.2, asSeconds_one_second]
  norm_num

/-! ## The frame count with the rounding of `float` -/

theorem log2_eq (x : ℚ) (e : ℤ) (hx : 0 < x) (h1 : (2 : ℚ) ^ e ≤ x)
    (h2 : x < (2 : ℚ) ^ (e + 1)) : Int.log 2 x = e := by
  have a : e ≤ Int.log 2 x :=
    (Int.zpow_le_iff_le_log (by norm_num) hx).mp (by exact_mod_cast h1)
  have b : Int.log 2 x < e + 1 :=
    (Int.lt_zpow_iff_log_lt (by norm_num) hx).mp (by exact_mod_cast h2)
  omega

theorem roundHalfEven_down (n : ℚ) (k : ℤ) (h1 : (k : ℚ) ≤ n) (h2 : n < k + 1 / 2) :
    roundHalfEven n = k := by
  have hf : ⌊n⌋ = k := Int.floor_eq_iff.mpr ⟨h1, by linarith⟩
  unfold roundHalfEven
  rw [hf, if_pos (by linarith)]

theorem roundHalfEven_tie_even (n : ℚ) (k : ℤ) (h1 : n = k + 1 / 2) (h2 : k % 2 = 0) :
    roundHalfEven n = k := by
  have hf : ⌊n⌋ = k := Int.floor_eq_iff.mpr ⟨by linarith, by linarith⟩
  unfold roundHalfEven
  rw [hf, if_neg (by linarith), if_neg (by linarith), if_pos h2]

theorem roundHalfEven_int (k : ℤ) : roundHalfEven (k : ℚ) = k :=
  roundHalfEven_down k k le_rfl (by linarith)

/-- The rounding of a positive value whose binary exponent is `e`. -/
theorem roundToBinary_pos (prec : Nat) (x : ℚ) (e m : ℤ) (hx : 0 < x)
    (h1 : (2 : ℚ) ^ e ≤ x) (h2 : x < (2 : ℚ) ^ (e + 1))
    (hm : roundHalfEven (x / 2 ^ (e + 1 - prec)) = m) :
    roundToBinary prec x = m * 2 ^ (e + 1 - prec) := by
  unfold roundToBinary
  rw [if_neg (ne_of_gt hx)]
  simp only [abs_of_pos hx, log2_eq x e hx h1 h2, if_pos hx, hm]

theorem roundToBinary_zero (prec : Nat) : roundToBinary prec 0 = 0 := by
  simp [roundToBinary]

/-- The literals `1.f` and `25.f`. -/
theorem roundFloat_one_and_rate :
    roundFloat 1 = 1 ∧ float_MTCFrameRate.getD 1 0 = 25 := by
  have h1 : roundFloat 1 = 1 := by
    unfold roundFloat
    rw [roundToBinary_pos 24 1 0 (2 ^ 23) (by norm_num) (by norm_num) (by norm_num)
      (by
        have h := roundHalfEven_int (2 ^ 23)
        norm_num at h ⊢
        exact h)]
    norm_num
  have h25 : roundFloat 25 = 25 := by
    unfold roundFloat
    rw [roundToBinary_pos 24 25 4 (25 * 2 ^ 19) (by norm_num) (by norm_num) (by norm_num)
      (by
        have h := roundHalfEven_int (25 * 2 ^ 19)
        norm_num at h ⊢
        exact h)]
    norm_num
  exact ⟨h1, by simp [float_MTCFrameRate, h25]⟩

/-- The entry `1.f / 25.f` of `MTCFrameSecond` is 10737418 / 2^28, below 1/25. -/
theorem float_MTCFrameSecond_25 : float_MTCFrameSecond.getD 1 0 = 10737418 / 2 ^ 28 := by
  have h : roundFloat (1 / 25) = 10737418 / 2 ^ 28 := by
    unfold roundFloat
    rw [roundToBinary_pos 24 (1 / 25) (-5) 10737418 (by norm_num) (by norm_num) (by norm_num)
      (roundHalfEven_down _ _ (by norm_num) (by norm_num))]
    norm_num
  simp only [float_MTCFrameSecond, List.getD_cons_succ, List.getD_cons_zero,
    roundFloat_one_and_rate.1, roundFloat_one_and_rate.2]
  exact h

/-- The `float` product `5 * (1.f / 25.f)` is a tie and rounds down to
3355443 / 2^24. -/
theorem roundFloat_five_frames :
    roundFloat (5 * (10737418 / 2 ^ 28)) = 3355443 / 2 ^ 24 := by
  unfold roundFloat
  rw [roundToBinary_pos 24 (5 * (10737418 / 2 ^ 28)) (-3) 13421772 (by norm_num)
    (by norm_num) (by norm_num)
    (roundHalfEven_tie_even _ _ (by norm_num) (by decide))]
  norm_num

/-- The value 3355443 / 2^24 is a `float` and a `double`. -/
theorem round_five_frames_fixed :
    roundDouble (3355443 / 2 ^ 24) = 3355443 / 2 ^ 24 ∧
      roundFloat (3355443 / 2 ^ 24) = 3355443 / 2 ^ 24 := by
  constructor
  · unfold roundDouble
    rw [roundToBinary_pos 53 (3355443 / 2 ^ 24) (-3) (3355443 * 2 ^ 31) (by norm_num)
      (by norm_num) (by norm_num)
      (by
        have h := roundHalfEven_int (3355443 * 2 ^ 31)
        norm_num at h ⊢
        exact h)]
    norm_num
  · unfold roundFloat
    rw [roundToBinary_pos 24 (3355443 / 2 ^ 24) (-3) (3355443 * 2 ^ 2) (by norm_num)
      (by norm_num) (by norm_num)
      (by
        have h := roundHalfEven_int (3355443 * 2 ^ 2)
        norm_num at h ⊢
        exact h)]
    norm_num

/-- The `float` product of 3355443 / 2^24 and `25.f` is 10485759 / 2^21, below 5. -/
theorem roundFloat_times_rate :
    roundFloat (3355443 / 2 ^ 24 * 25) = 10485759 / 2 ^ 21 := by
  unfold roundFloat
  rw [roundToBinary_pos 24 (3355443 / 2 ^ 24 * 25) 2 10485759 (by norm_num)
    (by norm_num) (by norm_num)
    (roundHalfEven_down _ _ (by norm_num) (by norm_num))]
  norm_num

/-- `asSeconds()` at the front packet 25 fps 0:0:0:5, with the rounding of each
operation. -/
theorem float_asSeconds_five_frames :
    float_asSeconds listFront (Parser.mk [MTCPacket.mk 1 0 0 0 5] clearedBuffer State.Header)
      = 3355443 / 2 ^ 24 := by
  simp only [float_asSeconds, listFront, List.headD_cons, float_MTCFrameSecond_25,
    Nat.cast_zero, zero_mul, roundDouble, roundToBinary_zero, add_zero, zero_add,
    Nat.cast_ofNat]
  rw [show roundFloat (5 * (10737418 / 2 ^ 28)) = 3355443 / 2 ^ 24 from roundFloat_five_frames]
  have h := round_five_frames_fixed
  unfold roundDouble at h
  rw [h.1, h.2]

/-- C12. The code at the front packet 25 fps 0:0:0:5, every operation rounded to
its machine type: `asSeconds()` is 3355443 / 2^24, just below 1/5, its `float`
product with `25.f` is just below 5, and `asFrameCount()` is 4, not
`(0*3600 + 0*60 + 0)*25 + 5 = 5`. -/
theorem C12_frame_count_at_five_frames :
    float_asSeconds listFront (Parser.mk [MTCPacket.mk 1 0 0 0 5] clearedBuffer State.Header)
        = 3355443 / 2 ^ 24 ∧
      asFrameCount listFront (Parser.mk [MTCPacket.mk 1 0 0 0 5] clearedBuffer State.Header)
        = 4 ∧
      asFrameCount listFront (Parser.mk [MTCPacket.mk 1 0 0 0 5] clearedBuffer State.Header)
        ≠ (((0 * 3600 + 0 * 60 + 0) * 25 + 5 : Nat) : Int) := by
  have hcount :
      asFrameCount listFront (Parser.mk [MTCPacket.mk 1 0 0 0 5] clearedBuffer State.Header)
        = 4 := by
    unfold asFrameCount
    rw [float_asSeconds_five_frames]
    simp only [listFront, List.headD_cons, roundFloat_one_and_rate.2]
    rw [roundFloat_times_rate]
    unfold truncate
    rw [if_pos (by norm_num)]
    exact Int.floor_eq_iff.mpr ⟨by norm_num, by norm_num⟩
  refine ⟨float_asSeconds_five_frames, hcount, ?_⟩
  rw [hcount]
  decide

/-! ## One byte, at most one push -/

/-- C13. For every decoder (any state, assembly buffer and queue) and every
byte `b`, the queue after `feed(b)` is the queue before with the assembly buffer
pushed when the state is `FFM_EOX` and `b` is `0xF7`, with one packet pushed
when the state is `QFM_Value` and `b` has fragment index 7, and the queue before
in every other case: at most one push, no removal. -/
theorem C13_at_most_one_push {Q : Type} (push : Q → MTCPacket → Q) (p : Parser Q) (b : Nat) :
    (feed push p b).mtc_packet_ =
      if p.state = State.FFM_EOX ∧ b = 0xF7 then
        push p.mtc_packet_ p.mtc_buffer_
      else if p.state = State.QFM_Value ∧ qfmIndex b = 7 then
        push p.mtc_packet_
          { type := (b >>> 1) &&& 3
            hour := p.mtc_buffer_.hour ||| ((b &&& 0x01) <<< 4)
            minute := p.mtc_buffer_.minute
            second := p.mtc_buffer_.second
            frame := p.mtc_buffer_.frame }
      else
        p.mtc_packet_ := by
  by_cases h1 : p.state = State.FFM_EOX ∧ b = 0xF7
  · rw [if_pos h1]
    obtain ⟨q, t, s⟩ := p
    obtain ⟨hs, hb⟩ := h1
    simp only at hs
    subst hs hb
    simp [feed, FFM_EOX]
  · rw [if_neg h1]
    by_cases h2 : p.state = State.QFM_Value ∧ qfmIndex b = 7
    · rw [if_pos h2]
      obtain ⟨q, t, s⟩ := p
      obtain ⟨hs, hb⟩ := h2
      simp only at hs
      subst hs
      have hq := congrArg Parser.mtc_packet_
        (feedSeq_qfm_last push ⟨q, t, State.Header⟩ rfl b hb)
      simpa [feedSeq, feed, FFM_Header_1, QFM_Header] using hq
    · rw [if_neg h2]
      exact feed_no_push push p b (by tauto) (by tauto)

/-! ## Corrupted literal bytes -/

/-- C14 (amended). Let hr, mn, sc, fr be data bytes below `0x80`, `pos` a
position in 0..4 and `x` a byte different from the literal expected at `pos`
and, when `pos` is 0, also different from `0xF1`.  The Full Frame Message
`F0 7F 7F 01 01 hr mn sc fr F7` with the byte at `pos` replaced by `x`, fed to a
decoder in state `Header`, pushes no packet (the queue is the initial one after
every byte) and ends in state `Header`. -/
theorem C14_corrupted_literal {Q : Type} (push : Q → MTCPacket → Q) (p : Parser Q)
    (hp : p.state = State.Header) (hr mn sc fr : Nat) (hhr : hr < 0x80) (hmn : mn < 0x80)
    (hsc : sc < 0x80) (hfr : fr < 0x80) (pos x : Nat) (hpos : pos ≤ 4)
    (hx : x ≠ (ffmBytes hr mn sc fr).getD pos 0) (hx1 : pos = 0 → x ≠ 0xF1) :
    (∀ k, (feedSeq push p (List.take k ((ffmBytes hr mn sc fr).set pos x))).mtc_packet_
        = p.mtc_packet_) ∧
      (feedSeq push p ((ffmBytes hr mn sc fr).set pos x)).state = State.Header := by
  have a1 : hr ≠ 240 := by omega
  have a2 : hr ≠ 241 := by omega
  have a3 : mn ≠ 240 := by omega
  have a4 : mn ≠ 241 := by omega
  have a5 : sc ≠ 240 := by omega
  have a6 : sc ≠ 241 := by omega
  have a7 : fr ≠ 240 := by omega
  have a8 : fr ≠ 241 := by omega
  obtain ⟨q, t, s⟩ := p
  simp only at hp
  subst hp
  have hall : ∀ k, k ≤ 10 →
      (feedSeq push ⟨q, t, State.Header⟩
          (List.take k ((ffmBytes hr mn sc fr).set pos x))).mtc_packet_ = q ∧
        (k = 10 → (feedSeq push ⟨q, t, State.Header⟩
          (List.take k ((ffmBytes hr mn sc fr).set pos x))).state = State.Header) := by
    intro k hk
    interval_cases pos <;> simp [ffmBytes] at hx hx1 <;> interval_cases k <;>
      simp [feedSeq, ffmBytes, feed, clearBuffer, FFM_Header_1, FFM_Header_2, FFM_Channel,
        FFM_ID_1, FFM_ID_2, FFM_EOX, QFM_Header, a1, a2, a3, a4, a5, a6, a7, a8, hx, hx1]
  have hlen : ((ffmBytes hr mn sc fr).set pos x).length = 10 := by simp [ffmBytes]
  refine ⟨?_, ?_⟩
  · intro k
    rcases Nat.lt_or_ge k 10 with hk | hk
    · exact (hall k (by omega)).1
    · rw [List.take_of_length_le (by omega)]
      have h10 := (hall 10 (by omega)).1
      rwa [List.take_of_length_le (by omega)] at h10
  · have h10 := (hall 10 (by omega)).2 rfl
    rwa [List.take_of_length_le (by omega)] at h10

/-- C14, as stated, fails at position 0 with `x = 0xF1`: `F1 7F` is a Quarter
Frame unit of fragment index 7 and pushes a packet. -/
theorem C14_counterexample :
    idleParser.state = State.Header ∧
      (0xF1 : Nat) ≠ (ffmBytes 0x21 0x05 0x0A 0x03).getD 0 0 ∧
      (ffmBytes 0x21 0x05 0x0A 0x03).set 0 0xF1 =
        [0xF1, 0x7F, 0x7F, 0x01, 0x01, 0x21, 0x05, 0x0A, 0x03, 0xF7] ∧
      (feedSeq listPush idleParser ((ffmBytes 0x21 0x05 0x0A 0x03).set 0 0xF1)).mtc_packet_ =
        [{ type := 3, hour := 0xFF, minute := 0xFF, second := 0xFF, frame := 0xFF }] := by
  refine ⟨rfl, by decide, rfl, rfl⟩

/-- C14 (amended), at the message carrying 25 fps 1:5:10:3 with the byte at
position 3 replaced by `0x02`. -/
theorem C14_corrupted_literal_witness :
    idleParser.state = State.Header ∧
      (0x21 : Nat) < 0x80 ∧ (0x05 : Nat) < 0x80 ∧ (0x0A : Nat) < 0x80 ∧ (0x03 : Nat) < 0x80 ∧
      3 ≤ 4 ∧ (0x02 : Nat) ≠ (ffmBytes 0x21 0x05 0x0A 0x03).getD 3 0 ∧
      ((3 : Nat) = 0 → (0x02 : Nat) ≠ 0xF1) ∧
      (∀ k, (feedSeq listPush idleParser
        (List.take k ((ffmBytes 0x21 0x05 0x0A 0x03).set 3 0x02))).mtc_packet_ = []) ∧
      (feedSeq listPush idleParser ((ffmBytes 0x21 0x05 0x0A 0x03).set 3 0x02)).state
        = State.Header :=
  ⟨rfl, by decide, by decide, by decide, by decide, by decide, by decide, by decide,
    C14_corrupted_literal listPush idleParser rfl 0x21 0x05 0x0A 0x03 (by decide) (by decide)
      (by decide) (by decide) 3 0x02 (by decide) (by decide) (by decide)⟩

/-! ## Duplicated fragments -/

theorem or_or_self (x y : Nat) : x ||| y ||| y = x ||| y := by
  rw [Nat.or_assoc, Nat.or_self]

theorem ff_or_bit (d : Nat) : 255 ||| ((d &&& 1) <<< 4) = 255 := by
  have hd : d &&& 1 = 0 ∨ d &&& 1 = 1 := by rw [and1_eq_mod]; omega
  rcases hd with hd | hd <;> rw [hd] <;> decide

/-- C15 (amended). For a decoder in state `Header` and a data byte `d` whose
fragment index is not 7, feeding the unit `F1 d` twice leaves the decoder
(state, assembly buffer and queue) exactly as feeding it once.  For a data byte
of fragment index 7 the second unit pushes a second packet, whose type is that
of the first and whose hour, minute, second and frame are `0xFF`; state and
assembly buffer are as after the first. -/
theorem C15_duplicated_fragment {Q : Type} (push : Q → MTCPacket → Q) (p : Parser Q)
    (hp : p.state = State.Header) (d : Nat) :
    (qfmIndex d ≠ 7 → feedSeq push p [0xF1, d, 0xF1, d] = feedSeq push p [0xF1, d]) ∧
      (qfmIndex d = 7 →
        feedSeq push p [0xF1, d, 0xF1, d] =
          { mtc_packet_ := push (feedSeq push p [0xF1, d]).mtc_packet_
              { type := (d >>> 1) &&& 3, hour := 0xFF, minute := 0xFF, second := 0xFF,
                frame := 0xFF }
            mtc_buffer_ := (feedSeq push p [0xF1, d]).mtc_buffer_
            state := (feedSeq push p [0xF1, d]).state }) := by
  have happ : feedSeq push p [0xF1, d, 0xF1, d] =
      feedSeq push (feedSeq push p [0xF1, d]) [0xF1, d] :=
    feedSeq_append push p [0xF1, d] [0xF1, d]
  refine ⟨?_, ?_⟩
  · intro hd
    have hst : (feedSeq push p [0xF1, d]).state = State.Header := by
      rw [feedSeq_qfm_unit push p hp d]
    rw [happ, feedSeq_qfm_unit push _ hst d, feedSeq_qfm_unit push p hp d]
    unfold qfmIndex at hd
    obtain ⟨q, t, s⟩ := p
    simp only [feedQFM, clearBuffer, QFM_Index_Frame_LSB, QFM_Index_Frame_MSB,
      QFM_Index_Second_LSB, QFM_Index_Second_MSB, QFM_Index_Minute_LSB, QFM_Index_Minute_MSB,
      QFM_Index_Hour_LSB, QFM_Index_Hour_MSB]
    split_ifs <;> simp [or_or_self]
  · intro hd
    rw [happ, feedSeq_qfm_last push p hp d hd, feedSeq_qfm_last push _ rfl d hd]
    have hb := ff_or_bit d
    rw [and1_eq_mod] at hb
    simp [clearedBuffer, hb]

/-- C15, as stated, fails for the fragment index 7: `F1 70` fed twice pushes two
packets, fed once it pushes one. -/
theorem C15_counterexample :
    idleParser.state = State.Header ∧ qfmIndex 0x70 = 7 ∧
      (feedSeq listPush idleParser [0xF1, 0x70]).mtc_packet_ =
        [{ type := 0, hour := 0xFF, minute := 0xFF, second := 0xFF, frame := 0xFF }] ∧
      (feedSeq listPush idleParser [0xF1, 0x70, 0xF1, 0x70]).mtc_packet_ =
        [{ type := 0, hour := 0xFF, minute := 0xFF, second := 0xFF, frame := 0xFF },
          { type := 0, hour := 0xFF, minute := 0xFF, second := 0xFF, frame := 0xFF }] := by
  refine ⟨rfl, by decide, rfl, rfl⟩

/-- C15 (amended), at the frame-MSB fragment `F1 11` fed to a decoder whose
assembly buffer holds frame 8. -/
theorem C15_duplicated_fragment_witness :
    (Parser.mk ([] : List MTCPacket) (MTCPacket.mk 0xFF 0xFF 0xFF 0xFF 8) State.Header).state
        = State.Header ∧
      qfmIndex 0x11 ≠ 7 ∧
      feedSeq listPush (Parser.mk [] (MTCPacket.mk 0xFF 0xFF 0xFF 0xFF 8) State.Header)
          [0xF1, 0x11, 0xF1, 0x11] =
        feedSeq listPush (Parser.mk [] (MTCPacket.mk 0xFF 0xFF 0xFF 0xFF 8) State.Header)
          [0xF1, 0x11] :=
  ⟨rfl, by decide,
    (C15_duplicated_fragment listPush
      (Parser.mk [] (MTCPacket.mk 0xFF 0xFF 0xFF 0xFF 8) State.Header) rfl 0x11).1
      (by decide)⟩

/-! ## Literal states of a Full Frame Message -/

/-- C16. In each of the states `FFM_Header_2`, `FFM_Channel`, `FFM_ID_1` and
`FFM_ID_2`, `feed` changes neither the assembly buffer nor the queue; the state
becomes the next state of the Full Frame Message when the byte is the expected
literal (`0x7F`, `0x7F`, `0x01`, `0x01`) and `Header` when it is not. -/
theorem C16_literal_mismatch_abort {Q : Type} (push : Q → MTCPacket → Q) (q : Q)
    (t : MTCPacket) (b : Nat) :
    feed push ⟨q, t, State.FFM_Header_2⟩ b =
        ⟨q, t, if b = 0x7F then State.FFM_Channel else State.Header⟩ ∧
      feed push ⟨q, t, State.FFM_Channel⟩ b =
        ⟨q, t, if b = 0x7F then State.FFM_ID_1 else State.Header⟩ ∧
      feed push ⟨q, t, State.FFM_ID_1⟩ b =
        ⟨q, t, if b = 0x01 then State.FFM_ID_2 else State.Header⟩ ∧
      feed push ⟨q, t, State.FFM_ID_2⟩ b =
        ⟨q, t, if b = 0x01 then State.FFM_Hour else State.Header⟩ := by
  refine ⟨?_, ?_, ?_, ?_⟩ <;>
    simp only [feed, FFM_Header_2, FFM_Channel, FFM_ID_1, FFM_ID_2] <;>
    split_ifs <;> rfl

/-! ## Fragments and their fields -/

/-- C17. For a decoder in state `Header` and a data byte `d`: the byte `F1`
changes neither the assembly buffer nor the queue; after `F1 d` the state is
`Header`; and when the fragment index of `d` is at most 6, `F1 d` pushes nothing,
leaves the type unchanged, and leaves unchanged the frame unless the index is 0
or 1, the second unless it is 2 or 3, the minute unless it is 4 or 5, and the
hour unless it is 6. -/
theorem C17_fragment_touches_own_field {Q : Type} (push : Q → MTCPacket → Q) (p : Parser Q)
    (hp : p.state = State.Header) (d : Nat) :
    (feed push p 0xF1).mtc_buffer_ = p.mtc_buffer_ ∧
      (feed push p 0xF1).mtc_packet_ = p.mtc_packet_ ∧
      (feedSeq push p [0xF1, d]).state = State.Header ∧
      (qfmIndex d ≤ 6 →
        (feedSeq push p [0xF1, d]).mtc_packet_ = p.mtc_packet_ ∧
          (feedSeq push p [0xF1, d]).mtc_buffer_.type = p.mtc_buffer_.type ∧
          (qfmIndex d ≠ 0 → qfmIndex d ≠ 1 →
            (feedSeq push p [0xF1, d]).mtc_buffer_.frame = p.mtc_buffer_.frame) ∧
          (qfmIndex d ≠ 2 → qfmIndex d ≠ 3 →
            (feedSeq push p [0xF1, d]).mtc_buffer_.second = p.mtc_buffer_.second) ∧
          (qfmIndex d ≠ 4 → qfmIndex d ≠ 5 →
            (feedSeq push p [0xF1, d]).mtc_buffer_.minute = p.mtc_buffer_.minute) ∧
          (qfmIndex d ≠ 6 →
            (feedSeq push p [0xF1, d]).mtc_buffer_.hour = p.mtc_buffer_.hour)) := by
  rw [feedSeq_qfm_unit push p hp d]
  obtain ⟨q, t, s⟩ := p
  simp only at hp
  subst hp
  refine ⟨by simp [feed, FFM_Header_1, QFM_Header], by simp [feed, FFM_Header_1, QFM_Header],
    rfl, ?_⟩
  unfold qfmIndex
  intro h6
  simp only [feedQFM, clearBuffer, QFM_Index_Frame_LSB, QFM_Index_Frame_MSB,
    QFM_Index_Second_LSB, QFM_Index_Second_MSB, QFM_Index_Minute_LSB, QFM_Index_Minute_MSB,
    QFM_Index_Hour_LSB, QFM_Index_Hour_MSB]
  split_ifs <;> simp_all

/-- C17, at the second-LSB fragment `F1 2A` fed to a decoder whose assembly
buffer holds 24 fps 1:2:3:4. -/
theorem C17_fragment_touches_own_field_witness :
    (Parser.mk ([] : List MTCPacket) (MTCPacket.mk 0 1 2 3 4) State.Header).state
        = State.Header ∧
      qfmIndex 0x2A ≤ 6 ∧
      (feedSeq listPush (Parser.mk [] (MTCPacket.mk 0 1 2 3 4) State.Header)
        [0xF1, 0x2A]).mtc_packet_ = [] ∧
      (feedSeq listPush (Parser.mk [] (MTCPacket.mk 0 1 2 3 4) State.Header)
        [0xF1, 0x2A]).mtc_buffer_ = MTCPacket.mk 0 1 2 10 4 :=
  ⟨rfl, by decide,
    ((C17_fragment_touches_own_field listPush
      (Parser.mk [] (MTCPacket.mk 0 1 2 3 4) State.Header) rfl 0x2A).2.2.2 (by decide)).1,
    rfl⟩

/-! ## Liveness -/

theorem stepsToHeader_le (s : State) : stepsToHeader s ≤ 9 := by
  cases s <;> simp [stepsToHeader]

theorem stepsToHeader_eq_zero (s : State) (h : stepsToHeader s = 0) : s = State.Header := by
  cases s <;> simp [stepsToHeader] at h ⊢

/-- Outside `Header`, every byte brings the decoder closer to `Header`. -/
theorem stepsToHeader_feed {Q : Type} (push : Q → MTCPacket → Q) (p : Parser Q) (b : Nat)
    (hp : p.state ≠ State.Header) :
    stepsToHeader (feed push p b).state < stepsToHeader p.state := by
  obtain ⟨q, t, s⟩ := p
  cases s
  case Header => exact absurd rfl hp
  all_goals
    simp only [feed]
    try split_ifs
    all_goals simp [stepsToHeader]

/-- A decoder at most `n` steps from `Header` is in `Header` after one of the
next `n` bytes. -/
theorem reaches_header {Q : Type} (push : Q → MTCPacket → Q) (n : Nat) :
    ∀ (p : Parser Q) (bs : List Nat), p.state ≠ State.Header → stepsToHeader p.state ≤ n →
      n ≤ bs.length →
      ∃ k, 1 ≤ k ∧ k ≤ n ∧ (feedSeq push p (List.take k bs)).state = State.Header := by
  induction n with
  | zero =>
    intro p bs hp hn _
    exact absurd (stepsToHeader_eq_zero p.state (by omega)) hp
  | succ n ih =>
    intro p bs hp hn hlen
    cases bs with
    | nil => simp at hlen
    | cons b bs =>
      have hlt := stepsToHeader_feed push p b hp
      by_cases h1 : (feed push p b).state = State.Header
      · exact ⟨1, by omega, by omega, by simpa [feedSeq] using h1⟩
      · obtain ⟨k, hk1, hk2, hk3⟩ := ih (feed push p b) bs h1 (by omega)
          (by simpa using hlen)
        exact ⟨k + 1, by omega, by omega, by simpa [List.take_succ_cons, feedSeq_cons] using hk3⟩

/-- C18. For every decoder and every sequence of ten bytes, the decoder is in
state `Header` after at least one of the first ten feeds; when it does not start
in `Header`, after at least one of the first nine. -/
theorem C18_never_stuck {Q : Type} (push : Q → MTCPacket → Q) (p : Parser Q) (bs : List Nat)
    (hlen : bs.length = 10) :
    (∃ k, 1 ≤ k ∧ k ≤ 10 ∧ (feedSeq push p (List.take k bs)).state = State.Header) ∧
      (p.state ≠ State.Header →
        ∃ k, 1 ≤ k ∧ k ≤ 9 ∧ (feedSeq push p (List.take k bs)).state = State.Header) := by
  have h9 : p.state ≠ State.Header →
      ∃ k, 1 ≤ k ∧ k ≤ 9 ∧ (feedSeq push p (List.take k bs)).state = State.Header :=
    fun hp => reaches_header push 9 p bs hp (stepsToHeader_le p.state) (by omega)
  refine ⟨?_, h9⟩
  by_cases hp : p.state = State.Header
  · cases bs with
    | nil => simp at hlen
    | cons b bs =>
      by_cases h1 : (feed push p b).state = State.Header
      · exact ⟨1, by omega, by omega, by simpa [feedSeq] using h1⟩
      · obtain ⟨k, hk1, hk2, hk3⟩ := reaches_header push 9 (feed push p b) bs h1
          (stepsToHeader_le _) (by simp at hlen; omega)
        exact ⟨k + 1, by omega, by omega, by simpa [List.take_succ_cons, feedSeq_cons] using hk3⟩
  · obtain ⟨k, hk1, hk2, hk3⟩ := h9 hp
    exact ⟨k, hk1, by omega, hk3⟩

/-- C18, at the ten bytes of a Full Frame Message, the longest way back to
`Header`. -/
theorem C18_never_stuck_witness :
    (ffmBytes 0x21 0x05 0x0A 0x03).length = 10 ∧
      ∃ k, 1 ≤ k ∧ k ≤ 10 ∧
        (feedSeq listPush idleParser (List.take k (ffmBytes 0x21 0x05 0x0A 0x03))).state
          = State.Header :=
  ⟨rfl, (C18_never_stuck listPush idleParser (ffmBytes 0x21 0x05 0x0A 0x03) rfl).1⟩

/-! ## The type of pushed packets -/

/-- One byte, whatever its value, preserves `typeInv`. -/
theorem typeInv_feed {Q : Type} (push : Q → MTCPacket → Q) (p : Parser Q) (b : Nat)
    (h : typeInv p.state p.mtc_buffer_) :
    typeInv (feed push p b).state (feed push p b).mtc_buffer_ := by
  obtain ⟨q, t, s⟩ := p
  cases s
  case FFM_Hour =>
    simp only [feed, typeInv, and3_eq_mod]
    omega
  all_goals
    simp only [typeInv] at h
    simp only [feed, clearBuffer]
    try split_ifs
    all_goals simp [typeInv, h]

theorem typeInv_feedSeq {Q : Type} (push : Q → MTCPacket → Q) (bs : List Nat) :
    ∀ (p : Parser Q), typeInv p.state p.mtc_buffer_ →
      typeInv (feedSeq push p bs).state (feedSeq push p bs).mtc_buffer_ := by
  induction bs with
  | nil => intro p h; exact h
  | cons b bs ih =>
    intro p h
    rw [feedSeq_cons]
    exact ih _ (typeInv_feed push p b h)

/-- Under `typeInv`, a byte pushes nothing or pushes one packet of type at most 3. -/
theorem feed_push_type {Q : Type} (push : Q → MTCPacket → Q) (p : Parser Q) (b : Nat)
    (h : typeInv p.state p.mtc_buffer_) :
    (feed push p b).mtc_packet_ = p.mtc_packet_ ∨
      ∃ t : MTCPacket, t.type ≤ 3 ∧ (feed push p b).mtc_packet_ = push p.mtc_packet_ t := by
  by_cases h1 : p.state = State.FFM_EOX ∧ b = 0xF7
  · right
    obtain ⟨q, t, s⟩ := p
    obtain ⟨hs, hb⟩ := h1
    simp only at hs
    subst hs hb
    exact ⟨t, by simpa [typeInv] using h, by simp [feed, FFM_EOX]⟩
  · by_cases h2 : p.state = State.QFM_Value ∧ qfmIndex b = 7
    · right
      obtain ⟨q, t, s⟩ := p
      obtain ⟨hs, hb⟩ := h2
      simp only at hs
      subst hs
      have hq := congrArg Parser.mtc_packet_
        (feedSeq_qfm_last push ⟨q, t, State.Header⟩ rfl b hb)
      refine ⟨_, ?_, by simpa [feedSeq, feed, FFM_Header_1, QFM_Header] using hq⟩
      show (b >>> 1) &&& 3 ≤ 3
      rw [and3_eq_mod]
      omega
    · left
      exact feed_no_push push p b (by tauto) (by tauto)

/-- C19. Let a decoder start in state `Header` or, more generally, in
any state in which `typeInv` holds (a state other than `FFM_Minute`,
`FFM_Second`, `FFM_Frame`, `FFM_EOX`, or an assembly-buffer type of at most 3),
and be fed any bytes.  Then every further byte pushes nothing or pushes one
packet whose type is at most 3 and so is an index within the 4-entry tables
`MTCFrameRate` and `MTCFrameSecond`; and every property of the queue that holds
at the start and is kept by a push of a packet of type at most 3 holds at the
end. -/
theorem C19_type_in_range {Q : Type} (push : Q → MTCPacket → Q) (p0 : Parser Q)
    (bs : List Nat) (b : Nat) (hinv : typeInv p0.state p0.mtc_buffer_) :
    ((feed push (feedSeq push p0 bs) b).mtc_packet_ = (feedSeq push p0 bs).mtc_packet_ ∨
        ∃ t : MTCPacket, t.type ≤ 3 ∧ t.type < MTCFrameRate.length ∧
          t.type < MTCFrameSecond.length ∧
          (feed push (feedSeq push p0 bs) b).mtc_packet_ =
            push (feedSeq push p0 bs).mtc_packet_ t) ∧
      ∀ good : Q → Prop, (∀ q t, good q → t.type ≤ 3 → good (push q t)) →
        good p0.mtc_packet_ → good (feedSeq push p0 bs).mtc_packet_ := by
  refine ⟨?_, ?_⟩
  · rcases feed_push_type push _ b (typeInv_feedSeq push bs p0 hinv) with h | ⟨t, ht, h⟩
    · exact Or.inl h
    · refine Or.inr ⟨t, ht, ?_, ?_, h⟩
      · simp only [MTCFrameRate, List.length]; omega
      · simp only [MTCFrameSecond, List.length]; omega
  · intro good hgood
    clear b
    induction bs generalizing p0 with
    | nil => intro h; exact h
    | cons c cs ih =>
      intro h
      rw [feedSeq_cons]
      apply ih (feed push p0 c) (typeInv_feed push p0 c hinv)
      rcases feed_push_type push p0 c hinv with h1 | ⟨t, ht, h1⟩
      · rw [h1]; exact h
      · rw [h1]; exact hgood _ t h ht

/-- C19, at the stream `F1 73` followed by a Full Frame Message fed to
a decoder in state `Header` with an empty list queue: every packet in the queue
has a type below 4. -/
theorem C19_type_in_range_witness :
    typeInv idleParser.state idleParser.mtc_buffer_ ∧
      (∀ (q : List MTCPacket) (t : MTCPacket),
        (∀ u ∈ q, u.type < 4) → t.type ≤ 3 → ∀ u ∈ listPush q t, u.type < 4) ∧
      (∀ u ∈ idleParser.mtc_packet_, u.type < 4) ∧
      ∀ u ∈ (feedSeq listPush idleParser
          ([0xF1, 0x73] ++ ffmBytes 0x21 0x05 0x0A 0x03)).mtc_packet_, u.type < 4 :=
  have hpush : ∀ (q : List MTCPacket) (t : MTCPacket),
      (∀ u ∈ q, u.type < 4) → t.type ≤ 3 → ∀ u ∈ listPush q t, u.type < 4 := by
    intro q t hq ht u hu
    rcases List.mem_append.mp hu with h | h
    · exact hq u h
    · rw [List.mem_singleton.mp h]; omega
  have hempty : ∀ u ∈ idleParser.mtc_packet_, u.type < 4 := by
    intro u hu
    simp [idleParser] at hu
  ⟨trivial, hpush, hempty,
    (C19_type_in_range listPush idleParser ([0xF1, 0x73] ++ ffmBytes 0x21 0x05 0x0A 0x03) 0
      trivial).2 (fun q => ∀ u ∈ q, u.type < 4) hpush hempty⟩

/-! ## The two wire encodings -/

theorem ffm_hour_byte : ∀ t, t ≤ 3 → ∀ h, h ≤ 31 →
    (((t <<< 5) ||| h) >>> 5) &&& 3 = t ∧ ((t <<< 5) ||| h) &&& 0x1F = h := by
  decide

theorem qfm_index_lsb : ∀ i, i ≤ 7 → ∀ v, v ≤ 63 → qfmIndex ((i <<< 4) ||| (v &&& 15)) = i := by
  unfold qfmIndex
  decide

theorem qfm_index_msb : ∀ i, i ≤ 7 → ∀ v, v ≤ 63 → qfmIndex ((i <<< 4) ||| (v >>> 4)) = i := by
  unfold qfmIndex
  decide

theorem qfm_index_last : ∀ t, t ≤ 3 → ∀ h, h ≤ 31 →
    qfmIndex ((7 <<< 4) ||| ((t <<< 1) ||| (h >>> 4))) = 7 := by
  unfold qfmIndex
  decide

theorem qfm_merge_one_bit : ∀ i, i ≤ 7 → ∀ j, j ≤ 7 → ∀ v, v ≤ 31 →
    (((i <<< 4) ||| (v &&& 15)) &&& 0x0F) ||| ((((j <<< 4) ||| (v >>> 4)) &&& 0x01) <<< 4) = v := by
  decide

theorem qfm_merge_two_bits : ∀ i, i ≤ 7 → ∀ j, j ≤ 7 → ∀ v, v ≤ 63 →
    (((i <<< 4) ||| (v &&& 15)) &&& 0x0F) ||| ((((j <<< 4) ||| (v >>> 4)) &&& 0x03) <<< 4) = v := by
  decide

theorem qfm_merge_last : ∀ t, t ≤ 3 → ∀ h, h ≤ 31 →
    (((6 <<< 4) ||| (h &&& 15)) &&& 0x0F) |||
        ((((7 <<< 4) ||| ((t <<< 1) ||| (h >>> 4))) &&& 0x01) <<< 4) = h ∧
      (((7 <<< 4) ||| ((t <<< 1) ||| (h >>> 4))) >>> 1) &&& 3 = t := by
  decide

/-- C20. For every timecode with type at most 3, hour at most 31, minute and
second at most 63 and frame at most 31, fed to a decoder in state `Header`, the
Full Frame Message `F0 7F 7F 01 01 (type<<5 | hour) minute second frame F7` and
the eight in-order Quarter Frame units `F1 (i<<4 | nibble_i)` with the nibbles
`frame&15`, `frame>>4`, `second&15`, `second>>4`, `minute&15`, `minute>>4`,
`hour&15`, `(type<<1) | (hour>>4)` each push exactly the packet that is the
timecode. -/
theorem C20_encodings_agree {Q : Type} (push : Q → MTCPacket → Q) (p : Parser Q)
    (hp : p.state = State.Header) (t h m s f : Nat) (ht : t ≤ 3) (hh : h ≤ 31)
    (hm : m ≤ 63) (hs : s ≤ 63) (hf : f ≤ 31) :
    (feedSeq push p (ffmBytes ((t <<< 5) ||| h) m s f)).mtc_packet_ =
        push p.mtc_packet_ { type := t, hour := h, minute := m, second := s, frame := f } ∧
      (feedSeq push p
        (qfmBytes ((0 <<< 4) ||| (f &&& 15)) ((1 <<< 4) ||| (f >>> 4))
          ((2 <<< 4) ||| (s &&& 15)) ((3 <<< 4) ||| (s >>> 4))
          ((4 <<< 4) ||| (m &&& 15)) ((5 <<< 4) ||| (m >>> 4))
          ((6 <<< 4) ||| (h &&& 15)) ((7 <<< 4) ||| ((t <<< 1) ||| (h >>> 4))))).mtc_packet_ =
        push p.mtc_packet_ { type := t, hour := h, minute := m, second := s, frame := f } := by
  refine ⟨?_, ?_⟩
  · rw [feedSeq_ffm push p hp, (ffm_hour_byte t ht h hh).1, (ffm_hour_byte t ht h hh).2]
  · rw [feedSeq_qfm_cycle push p hp _ _ _ _ _ _ _ _
      (qfm_index_lsb 0 (by omega) f (by omega)) (qfm_index_msb 1 (by omega) f (by omega))
      (qfm_index_lsb 2 (by omega) s hs) (qfm_index_msb 3 (by omega) s hs)
      (qfm_index_lsb 4 (by omega) m hm) (qfm_index_msb 5 (by omega) m hm)
      (qfm_index_lsb 6 (by omega) h (by omega)) (qfm_index_last t ht h hh)]
    rw [qfm_merge_one_bit 0 (by omega) 1 (by omega) f hf,
      qfm_merge_two_bits 2 (by omega) 3 (by omega) s hs,
      qfm_merge_two_bits 4 (by omega) 5 (by omega) m hm, (qfm_merge_last t ht h hh).1,
      (qfm_merge_last t ht h hh).2]

/-- C20, at the timecode 25 fps 21:59:58:24: the Full Frame Message
`F0 7F 7F 01 01 35 3B 3A 18 F7` and the units `F1 08 F1 11 F1 2A F1 33 F1 4B
F1 53 F1 65 F1 73` push the same packet. -/
theorem C20_encodings_agree_witness :
    idleParser.state = State.Header ∧ 1 ≤ 3 ∧ 21 ≤ 31 ∧ 59 ≤ 63 ∧ 58 ≤ 63 ∧ 24 ≤ 31 ∧
      (feedSeq listPush idleParser
        [0xF0, 0x7F, 0x7F, 0x01, 0x01, 0x35, 0x3B, 0x3A, 0x18, 0xF7]).mtc_packet_ =
        [{ type := 1, hour := 21, minute := 59, second := 58, frame := 24 }] ∧
      (feedSeq listPush idleParser
        [0xF1, 0x08, 0xF1, 0x11, 0xF1, 0x2A, 0xF1, 0x33, 0xF1, 0x4B, 0xF1, 0x53, 0xF1, 0x65,
          0xF1, 0x73]).mtc_packet_ =
        [{ type := 1, hour := 21, minute := 59, second := 58, frame := 24 }] :=
  ⟨rfl, by decide, by decide, by decide, by decide, by decide,
    (C20_encodings_agree listPush idleParser rfl 1 21 59 58 24 (by decide) (by decide)
      (by decide) (by decide) (by decide)).1,
    (C20_encodings_agree listPush idleParser rfl 1 21 59 58 24 (by decide) (by decide)
      (by decide) (by decide) (by decide)).2⟩

end MTCParser
